import Mathlib

/-!
Verification of the ReadFast speed-reader presentation engine.

The definitions below are a shallow embedding of the JavaScript source
(`SentenceDetector`, `WordMetrics`, `RenderEngine._createWordElement`,
`WordMarqueeEngine`, and the `saveState` / `loadState` persistence pair).
JavaScript numbers are modelled as `Int` where the program only ever stores
integers (word and sentence indices, timer ids) and as `ℚ` where fractional
values occur (pixel widths, millisecond delays, words-per-minute rates).
The DOM text-measurement call (`offsetWidth`) is an external dependency and
is modelled as an explicit function parameter `m : String → Bool → ℚ`;
`fallbackMeasure` is the in-source fallback (`text.length * 10`) used when
the DOM measurement throws.  Timers (`setInterval` / `setTimeout` /
`clearInterval` / `clearTimeout`) are modelled by an explicit list of active
timers carried in the engine state, with fresh positive integer ids.
-/

namespace ReadFast

/-! ## JavaScript string primitives

`jsWs` models the JavaScript `/\s/` test restricted to the ASCII whitespace
characters that can occur in this program's data (the word tokens fed to the
engine are whitespace-free, and sentences are joined with plain spaces).
-/

def jsWs (c : Char) : Bool :=
  (c == ' ') || (c == '\t') || (c == '\n') || (c == '\r') ||
  (c == '\x0b') || (c == '\x0c')

/-- JavaScript `String.prototype.trim`: drop whitespace from both ends. -/
def jsTrim (l : List Char) : List Char :=
  ((l.dropWhile jsWs).reverse.dropWhile jsWs).reverse

/-- Accumulator-passing splitter: `acc` holds the current token reversed. -/
def splitWsAux : List Char → List Char → List (List Char)
  | acc, [] => if acc.isEmpty then [] else [acc.reverse]
  | acc, c :: rest =>
    if jsWs c then
      if acc.isEmpty then splitWsAux [] rest
      else acc.reverse :: splitWsAux [] rest
    else splitWsAux (c :: acc) rest

/-- JavaScript `s.split(/\s+/).filter(w => w.length > 0)`: the maximal
non-whitespace runs of `l`, in order, with no empty tokens. -/
def splitWsF (l : List Char) : List (List Char) := splitWsAux [] l

/-- Number of whitespace-delimited tokens of a string
(the JS idiom `s.split(/\s+/).filter(w => w.length > 0).length`). -/
def countTokens (s : String) : Nat := (splitWsF s.data).length

/-- JavaScript `lastWord.replace(/\.$/, '')`: strip one trailing dot. -/
def stripTrailingDot (l : List Char) : List Char :=
  match l.getLast? with
  | some c => if c = '.' then l.dropLast else l
  | none => l

def isAsciiUpper (c : Char) : Bool := decide ('A' ≤ c) && decide (c ≤ 'Z')

/-! ## SentenceDetector -/

/-- The abbreviation set from `SentenceDetector`'s constructor. -/
def abbreviations : List String :=
  ["Dr", "Mr", "Mrs", "Ms", "Prof", "Sr", "Jr",
   "etc", "vs", "e.g", "i.e", "cf", "approx",
   "U.S", "U.K", "U.N", "E.U",
   "St", "Ave", "Blvd", "Rd",
   "Jan", "Feb", "Mar", "Apr", "Jun", "Jul", "Aug", "Sep", "Sept", "Oct",
   "Nov", "Dec",
   "Mon", "Tue", "Wed", "Thu", "Fri", "Sat", "Sun",
   "Inc", "Ltd", "Corp", "Co"]

/-- `currentSentence.trim().split(/\s+/)` and take the last entry.  On a
whitespace-only accumulator JavaScript yields `[""]` whose last entry is the
empty string; `splitWsF` of the trimmed text is empty in exactly that case,
so the empty-string default coincides with the source behaviour. -/
def lastWordOf (l : List Char) : List Char :=
  match (splitWsF (jsTrim l)).getLast? with
  | some w => w
  | none => []

/-- One step of `SentenceDetector.detectSentences`'s character scan.
`cur` is the accumulated `currentSentence`, `rest` the characters after the
one just consumed (`text[i+1]`, `text[i+2]`, … in the source). -/
def detectAux : List Char → List Char → List String
  | cur, [] =>
    if (jsTrim cur).isEmpty then [] else [String.mk (jsTrim cur)]
  | cur, c :: rest =>
    let cur1 := cur ++ [c]
    if c = '.' ∨ c = '!' ∨ c = '?' then
      let isAbbreviation :=
        abbreviations.contains (String.mk (stripTrailingDot (lastWordOf cur1)))
      if !isAbbreviation then
        let nextChar := rest.head?
        let afterSpace := (rest.drop 1).head?
        let nextIsWhitespace : Bool :=
          match nextChar with
          | none => true
          | some ch => jsWs ch
        let nextIsQuote : Bool :=
          match nextChar with
          | some ch => (ch == '"') || (ch == '\'')
          | none => false
        let afterSpaceIsUpper : Bool :=
          match afterSpace with
          | some ch => isAsciiUpper ch
          | none => false
        let isEndOfText : Bool := rest.isEmpty
        if (nextIsWhitespace || nextIsQuote) &&
           (afterSpaceIsUpper || isEndOfText || nextChar.isNone) then
          String.mk (jsTrim cur1) :: detectAux [] rest
        else detectAux cur1 rest
      else detectAux cur1 rest
    else detectAux cur1 rest

/-- `SentenceDetector.detectSentences`. -/
def detectSentences (text : String) : List String :=
  if (jsTrim text.data).isEmpty then [] else detectAux [] text.data

/-! ## WordMetrics

The center-character index is computed inline at three places in the source:
`WordMetrics.getWordWidth`, `WordMetrics.getMiddleLetterOffset` and
`RenderEngine._createWordElement`.  Each inline computation is embedded as
its own definition so that their agreement is a theorem, not a modelling
assumption. -/

/-- `const middleIndex = len <= 2 ? 0 : Math.floor(len / 2)` as it appears in
`WordMetrics.getWordWidth`. -/
def gwwMiddleIndex (len : Nat) : Nat := if len ≤ 2 then 0 else len / 2

/-- The same inline computation as it appears in
`WordMetrics.getMiddleLetterOffset`. -/
def gmloMiddleIndex (len : Nat) : Nat := if len ≤ 2 then 0 else len / 2

/-- The same inline computation as it appears in
`RenderEngine._createWordElement`. -/
def cweMiddleIndex (len : Nat) : Nat := if len ≤ 2 then 0 else len / 2

/-- Modelled from the spec: “for a word of length L, the center index is `0`
if `L ≤ 2`, else `floor(L/2)`” (§3, center-character rule).  Used only to
compare the three source-side computations against the spec's words. -/
def specCenterIndex (L : Nat) : Nat := if L ≤ 2 then 0 else L / 2

/-- `WordMetrics.getWordWidth(word, isFocus)`.  `m text bold` is the DOM
measurement `_measureText(text, bold)`. -/
def getWordWidth (m : String → Bool → ℚ) (word : List Char) (isFocus : Bool) : ℚ :=
  if !isFocus then m (String.mk word) false
  else
    let middleIndex := gwwMiddleIndex word.length
    let before := String.mk (word.take middleIndex)
    let middle := String.mk ((word.drop middleIndex).take 1)
    let after := String.mk (word.drop (middleIndex + 1))
    m before false + m middle true + m after false

/-- `WordMetrics.getMiddleLetterOffset(word)`: sum of the non-bold widths of
the characters before the middle index, plus half the bold width of the
middle character. -/
def getMiddleLetterOffset (m : String → Bool → ℚ) (word : List Char) : ℚ :=
  let middleIndex := gmloMiddleIndex word.length
  let offset := ((word.take middleIndex).map (fun c => m (String.mk [c]) false)).sum
  let middleWidth := m (String.mk ((word.drop middleIndex).take 1)) true
  offset + middleWidth / 2

/-- The before/center/after split produced by `RenderEngine._createWordElement`
for a focus word (the three spans concatenated into `span.innerHTML`). -/
def createWordElementFocusSplit (word : List Char) : String × String × String :=
  let middleIndex := cweMiddleIndex word.length
  (String.mk (word.take middleIndex),
   String.mk ((word.drop middleIndex).take 1),
   String.mk (word.drop (middleIndex + 1)))

/-- One entry of `WordMetrics.wordPositions`. -/
structure WordPosition where
  word : String
  index : Nat
  startPosition : ℚ
  width : ℚ
  middleLetterOffset : ℚ
  centerPosition : ℚ
  deriving DecidableEq

/-- The loop body of `WordMetrics._calculateWordPositions`: `cum` is the
running `cumulativePosition`, `idx` the running array index. -/
def calcPositionsAux (m : String → Bool → ℚ) (spacing : ℚ) :
    ℚ → Nat → List String → List WordPosition
  | _, _, [] => []
  | cum, idx, w :: ws =>
    let width := getWordWidth m w.data true
    let middleLetterOffset := getMiddleLetterOffset m w.data
    { word := w, index := idx, startPosition := cum, width := width,
      middleLetterOffset := middleLetterOffset,
      centerPosition := cum + middleLetterOffset } ::
      calcPositionsAux m spacing (cum + width + spacing) (idx + 1) ws

/-- `WordMetrics._calculateWordPositions()`.  `spacing` is
`config.wordSpacing` (8 in `CONFIG`). -/
def calculateWordPositions (m : String → Bool → ℚ) (spacing : ℚ)
    (words : List String) : List WordPosition :=
  calcPositionsAux m spacing 0 0 words

/-- The measurement fallback from `WordMetrics._measureText`'s catch branch:
`text.length * 10`. -/
def fallbackMeasure (s : String) (_bold : Bool) : ℚ := (s.data.length : ℚ) * 10

/-! ## Sentence-to-word-index map (`WordMarqueeEngine._initializeSentences`) -/

/-- One entry of `WordMarqueeEngine.sentenceWordMap`.  `endWordIndex` is an
`Int` because the source computes `wordIndex + sentenceWords.length - 1`,
which is `-1`-valued when a sentence has no tokens. -/
structure SentenceSpan where
  sentenceIndex : Nat
  startWordIndex : Int
  endWordIndex : Int
  text : String
  deriving DecidableEq

/-- The `forEach` loop of `_initializeSentences`: `idx` is the running
sentence index, `wordIndex` the running word index. -/
def buildSentenceMap (idx : Nat) (wordIndex : Int) :
    List String → List SentenceSpan
  | [] => []
  | s :: rest =>
    let n : Int := countTokens s
    { sentenceIndex := idx, startWordIndex := wordIndex,
      endWordIndex := wordIndex + n - 1, text := s } ::
      buildSentenceMap (idx + 1) (wordIndex + n) rest

/-- `WordMarqueeEngine._initializeSentences()`: join the word tokens with
single spaces, segment into sentences, then assign contiguous word-index
ranges sized by each sentence's own token count. -/
def initializeSentences (words : List String) : List SentenceSpan :=
  buildSentenceMap 0 0 (detectSentences (String.intercalate " " words))

/-! ## WordMarqueeEngine state machine

The engine's mutable state plus an explicit model of the browser timer
table.  `timers` is the list of currently scheduled callbacks
(`setInterval` entries are `repeating`, `setTimeout` entries are not);
ids are fresh positive integers, matching the positive ids browsers
return.  `intervalId` is the engine's own `this.intervalId` field.
`state.lastTimestamp` is omitted: the source only ever writes it. -/

inductive Mode where
  | word
  | sentence
  deriving DecidableEq

inductive TimerAction where
  | advWord
  | advSentence
  deriving DecidableEq

structure ActiveTimer where
  id : Nat
  repeating : Bool
  action : TimerAction
  delay : ℚ
  deriving DecidableEq

structure EngineSt where
  mode : Mode
  isPlaying : Bool
  focusIndex : Int
  sentenceIndex : Int
  wpm : ℚ
  intervalId : Option Nat
  timers : List ActiveTimer
  nextTimerId : Nat
  deriving DecidableEq

/-- A loaded document: the word tokens plus `config.paging.wordsPerPage`
(300 in `CONFIG`). -/
structure Doc where
  words : List String
  wordsPerPage : Int
  deriving DecidableEq

/-- The engine's `sentenceWordMap` for this document. -/
def Doc.smap (doc : Doc) : List SentenceSpan := initializeSentences doc.words

/-- `metrics.getWordCount()`. -/
def Doc.wordCount (doc : Doc) : Int := doc.words.length

/-- JavaScript array indexing `sentenceWordMap[i]` (undefined off either
end). -/
def spanAt (smap : List SentenceSpan) (i : Int) : Option SentenceSpan :=
  if 0 ≤ i then smap.get? i.toNat else none

/-- The `if (this.intervalId) { clearInterval(...); clearTimeout(...);
this.intervalId = null; }` body shared by `stop()`. -/
def clearScheduled (st : EngineSt) : EngineSt :=
  match st.intervalId with
  | none => st
  | some id =>
    { st with timers := st.timers.filter (fun t => t.id ≠ id), intervalId := none }

/-- `WordMarqueeEngine.stop()`. -/
def stopSim (st : EngineSt) : EngineSt :=
  clearScheduled { st with isPlaying := false }

/-- `this.intervalId = setInterval(callback, delay)`. -/
def installInterval (st : EngineSt) (action : TimerAction) (delay : ℚ) : EngineSt :=
  { st with
    timers := st.timers ++
      [{ id := st.nextTimerId, repeating := true, action := action, delay := delay }],
    intervalId := some st.nextTimerId,
    nextTimerId := st.nextTimerId + 1 }

/-- `this.intervalId = setTimeout(callback, delay)`. -/
def installTimeout (st : EngineSt) (action : TimerAction) (delay : ℚ) : EngineSt :=
  { st with
    timers := st.timers ++
      [{ id := st.nextTimerId, repeating := false, action := action, delay := delay }],
    intervalId := some st.nextTimerId,
    nextTimerId := st.nextTimerId + 1 }

/-- `const wordInterval = 60000 / this.config.wpm`. -/
def wordIntervalMs (wpm : ℚ) : ℚ := 60000 / wpm

/-- `WordMarqueeEngine._advanceWord()`. -/
def advanceWordSim (doc : Doc) (st : EngineSt) : EngineSt :=
  if st.focusIndex < doc.wordCount - 1 then
    { st with focusIndex := st.focusIndex + 1 }
  else stopSim st

/-- `WordMarqueeEngine._advanceSentence()`.  When
`sentenceWordMap[sentenceIndex]` is undefined the source dereferences
`sentenceMap.text`, throws, and the surrounding catch calls `this.stop()`
with `sentenceIndex` already incremented. -/
def advanceSentenceSim (doc : Doc) (st : EngineSt) : EngineSt :=
  let smap := doc.smap
  if st.sentenceIndex < (smap.length : Int) - 1 then
    let st1 := { st with sentenceIndex := st.sentenceIndex + 1 }
    match spanAt smap st1.sentenceIndex with
    | some sp =>
      let st2 := { st1 with focusIndex := sp.startWordIndex }
      let delayMs := ((countTokens sp.text : ℚ) / st2.wpm) * 60000
      if st2.isPlaying = true ∧ st2.mode = Mode.sentence then
        installTimeout st2 TimerAction.advSentence delayMs
      else st2
    | none => stopSim st1
  else stopSim st

/-- `WordMarqueeEngine.start()`. -/
def startSim (doc : Doc) (st : EngineSt) : EngineSt :=
  if st.isPlaying then st
  else
    let st1 := { st with isPlaying := true }
    if st1.mode = Mode.sentence then advanceSentenceSim doc st1
    else installInterval st1 TimerAction.advWord (wordIntervalMs st1.wpm)

/-- `WordMarqueeEngine.setSpeed(value)`. -/
def setSpeedSim (v : ℚ) (st : EngineSt) : EngineSt :=
  let st1 := { st with wpm := v }
  if st1.isPlaying = true ∧ st1.mode = Mode.word then
    installInterval (clearScheduled st1) TimerAction.advWord (wordIntervalMs v)
  else st1

/-- The sentence-containment loop in `toggleMode()` (first span whose
`[startWordIndex, endWordIndex]` range contains `f`, with its index). -/
def toggleFind : List SentenceSpan → Nat → Int → Option (Nat × SentenceSpan)
  | [], _, _ => none
  | sp :: rest, i, f =>
    if sp.startWordIndex ≤ f ∧ f ≤ sp.endWordIndex then some (i, sp)
    else toggleFind rest (i + 1) f

/-- `WordMarqueeEngine.toggleMode()`. -/
def toggleModeSim (doc : Doc) (st : EngineSt) : EngineSt :=
  let wasPlaying := st.isPlaying
  let st0 := stopSim st
  let st1 :=
    if st0.mode = Mode.word then
      let base := { st0 with mode := Mode.sentence, sentenceIndex := 0 }
      match toggleFind doc.smap 0 st0.focusIndex with
      | some (i, sp) =>
        { base with sentenceIndex := (i : Int), focusIndex := sp.startWordIndex }
      | none => base
    else { st0 with mode := Mode.word }
  if wasPlaying then startSim doc st1 else st1

/-- `WordMarqueeEngine._handleWheel(event)` (only `deltaY`'s sign matters). -/
def wheelSim (doc : Doc) (deltaY : Int) (st : EngineSt) : EngineSt :=
  if st.mode = Mode.sentence then
    if 0 < deltaY then
      if 0 < st.sentenceIndex then
        let st1 := { st with sentenceIndex := st.sentenceIndex - 1 }
        match spanAt doc.smap st1.sentenceIndex with
        | some sp => { st1 with focusIndex := sp.startWordIndex }
        | none => st1
      else st
    else if deltaY < 0 then
      if st.sentenceIndex < (doc.smap.length : Int) - 1 then
        let st1 := { st with sentenceIndex := st.sentenceIndex + 1 }
        match spanAt doc.smap st1.sentenceIndex with
        | some sp => { st1 with focusIndex := sp.startWordIndex }
        | none => st1
      else st
    else st
  else
    if 0 < deltaY then
      if 0 < st.focusIndex then { st with focusIndex := st.focusIndex - 1 } else st
    else if deltaY < 0 then
      if st.focusIndex < doc.wordCount - 1 then
        { st with focusIndex := st.focusIndex + 1 }
      else st
    else st

/-- `WordMarqueeEngine._nextPage()` (`Math.floor` on non-negative-by-invariant
indices is floor division). -/
def nextPageSim (doc : Doc) (st : EngineSt) : EngineSt :=
  if st.mode = Mode.sentence then
    let newIndex := min (st.sentenceIndex + 10) ((doc.smap.length : Int) - 1)
    let st1 := { st with sentenceIndex := newIndex }
    match spanAt doc.smap newIndex with
    | some sp => { st1 with focusIndex := sp.startWordIndex }
    | none => st1
  else
    let currentPage := Int.fdiv st.focusIndex doc.wordsPerPage
    let nextPageStart := min ((currentPage + 1) * doc.wordsPerPage) (doc.wordCount - 1)
    { st with focusIndex := nextPageStart }

/-- `WordMarqueeEngine._prevPage()`. -/
def prevPageSim (doc : Doc) (st : EngineSt) : EngineSt :=
  if st.mode = Mode.sentence then
    let newIndex := max (st.sentenceIndex - 10) 0
    let st1 := { st with sentenceIndex := newIndex }
    match spanAt doc.smap newIndex with
    | some sp => { st1 with focusIndex := sp.startWordIndex }
    | none => st1
  else
    let currentPage := Int.fdiv st.focusIndex doc.wordsPerPage
    let prevPageStart := max ((currentPage - 1) * doc.wordsPerPage) 0
    { st with focusIndex := prevPageStart }

/-- The scheduler firing timer `id`: a `setTimeout` entry is removed from
the table before its callback runs, a `setInterval` entry stays. -/
def fireTimerSim (doc : Doc) (id : Nat) (st : EngineSt) : EngineSt :=
  match st.timers.find? (fun t => t.id == id) with
  | none => st
  | some t =>
    let st1 :=
      if t.repeating then st
      else { st with timers := st.timers.filter (fun u => u.id ≠ id) }
    match t.action with
    | TimerAction.advWord => advanceWordSim doc st1
    | TimerAction.advSentence => advanceSentenceSim doc st1

/-- The engine operations reachable from user input or the scheduler. -/
inductive Op where
  | start
  | stop
  | toggleMode
  | nextPage
  | prevPage
  | setSpeed (v : ℚ)
  | wheel (deltaY : Int)
  | fire (id : Nat)

def stepSim (doc : Doc) : Op → EngineSt → EngineSt
  | Op.start => startSim doc
  | Op.stop => stopSim
  | Op.toggleMode => toggleModeSim doc
  | Op.nextPage => nextPageSim doc
  | Op.prevPage => prevPageSim doc
  | Op.setSpeed v => setSpeedSim v
  | Op.wheel d => wheelSim doc d
  | Op.fire id => fireTimerSim doc id

def runSim (doc : Doc) (ops : List Op) (st : EngineSt) : EngineSt :=
  ops.foldl (fun s op => stepSim doc op s) st

/-- The freshly loaded engine state (constructor / `loadNewText`):
word mode, paused, both indices 0, no timer scheduled. -/
def initialEngineState (wpm : ℚ) : EngineSt :=
  { mode := Mode.word, isPlaying := false, focusIndex := 0, sentenceIndex := 0,
    wpm := wpm, intervalId := none, timers := [], nextTimerId := 1 }

/-! ## Constructors (`WordMetrics`, `WordMarqueeEngine`) -/

structure WordMetricsData where
  words : List String
  wordPositions : List WordPosition
  deriving DecidableEq

/-- `WordMetrics`'s constructor: a thrown `Error` is an `Except.error`.
The `measure` DOM element's presence is implied by supplying `m`. -/
def mkWordMetrics (m : String → Bool → ℚ) (spacing : ℚ) (words : List String) :
    Except String WordMetricsData :=
  if words.isEmpty then
    Except.error "WordMetrics: words must be a non-empty array"
  else Except.ok ⟨words, calculateWordPositions m spacing words⟩

structure EngineInit where
  metrics : WordMetricsData
  sentenceWordMap : List SentenceSpan
  state : EngineSt
  deriving DecidableEq

/-- `WordMarqueeEngine`'s constructor.  The `!Array.isArray(words)` half of
the guard is unrepresentable in a typed embedding; `words.length === 0` is
`words.isEmpty`. -/
def mkWordMarqueeEngine (m : String → Bool → ℚ) (spacing wpm : ℚ)
    (words : List String) : Except String EngineInit :=
  if words.isEmpty then
    Except.error "WordMarqueeEngine: words must be a non-empty array"
  else
    match mkWordMetrics m spacing words with
    | Except.error e =>
      Except.error ("WordMarqueeEngine: Initialization failed - " ++ e)
    | Except.ok ms =>
      Except.ok ⟨ms, initializeSentences words, initialEngineState wpm⟩

/-! ## Snapshot codec (`saveState` / `loadState`)

`saveState` serialises `{ mode, focusIndex, sentenceIndex, wpm }` for the
reader (plus book/pdf/ui records) to `sessionStorage` as JSON, and the
restore path (`StateRestoration._restoreReadFastState`) assigns those four
fields back.  JSON stringify/parse is the identity on this record (all
numeric fields are finite numbers), so the codec is modelled directly on
the structured record. -/

/-- The `readfast` record written by `saveState`. -/
structure ReadfastSnapshot where
  mode : Mode
  focusIndex : Int
  sentenceIndex : Int
  wpm : ℚ
  deriving DecidableEq

/-- The `readfast:` block of `saveState`. -/
def saveReadfastState (st : EngineSt) : ReadfastSnapshot :=
  { mode := st.mode, focusIndex := st.focusIndex,
    sentenceIndex := st.sentenceIndex, wpm := st.wpm }

/-- `StateRestoration._restoreReadFastState` applied to a freshly loaded
engine state `st`: `sentenceIndex || 0` is the identity on integers, and
`if (readfastState.wpm)` keeps the old rate when the stored one is zero. -/
def restoreReadfastState (snap : ReadfastSnapshot) (st : EngineSt) : EngineSt :=
  { st with
    mode := snap.mode,
    focusIndex := snap.focusIndex,
    sentenceIndex := snap.sentenceIndex,
    wpm := if snap.wpm ≠ 0 then snap.wpm else st.wpm }

/-! ## Reachability invariants -/

/-- Bounds maintained for the engine's position fields.  `sentenceIndex`
ranges over `[-1, max (sentenceCount - 1) 0]`: the source can assign `-1`
through `Math.min(sentenceIndex + 10, length - 1)` on an empty sentence
map, and `0` is its initial value even when the map is empty. -/
def FocusInv (doc : Doc) (st : EngineSt) : Prop :=
  0 ≤ st.focusIndex ∧ st.focusIndex < doc.wordCount ∧
  -1 ≤ st.sentenceIndex ∧
  st.sentenceIndex ≤ max ((doc.smap.length : Int) - 1) 0

/-- Document hypotheses under which `FocusInv` is preserved: non-empty
words, a positive page size, and a sentence map whose `startWordIndex`
entries are valid word indices. -/
def GoodDoc (doc : Doc) : Prop :=
  doc.words ≠ [] ∧ 0 < doc.wordsPerPage ∧
  ∀ sp ∈ doc.smap, 0 ≤ sp.startWordIndex ∧ sp.startWordIndex < doc.wordCount

/-- Timer-table invariant: paused ⇒ no scheduled callback; playing ⇒
exactly one, tracked by `intervalId` — a repeating word advance in word
mode, a one-shot sentence advance in sentence mode. -/
def TimerInv (st : EngineSt) : Prop :=
  (st.isPlaying = false → st.timers = []) ∧
  (st.isPlaying = true → ∃ t, st.timers = [t] ∧ st.intervalId = some t.id ∧
    ((st.mode = Mode.word ∧ t.repeating = true ∧ t.action = TimerAction.advWord) ∨
     (st.mode = Mode.sentence ∧ t.repeating = false ∧
       t.action = TimerAction.advSentence)))

end ReadFast

/-- C6: the sentence segmenter splits `"Dr. Smith arrived. He left."` into
exactly the two sentences `"Dr. Smith arrived."` and `"He left."`; the period
after the abbreviation `"Dr"` is not a boundary, the one after `"arrived"`
(before a space and an uppercase letter) is, and the final period at
end-of-text closes the last sentence. -/
theorem c6_abbreviation_segmentation :
    ReadFast.detectSentences "Dr. Smith arrived. He left." =
      ["Dr. Smith arrived.", "He left."] := by
  decide

namespace ReadFast

theorem calcPositionsAux_length (m : String → Bool → ℚ) (spacing : ℚ) :
    ∀ (ws : List String) (cum : ℚ) (idx : Nat),
      (calcPositionsAux m spacing cum idx ws).length = ws.length
  | [], _, _ => rfl
  | _ :: ws, cum, idx => by
    simp [calcPositionsAux, calcPositionsAux_length m spacing ws]

theorem sum_char_measures_le (m : String → Bool → ℚ)
    (h0 : ∀ s b, 0 ≤ m s b)
    (hsup : ∀ s t : List Char,
      m (String.mk s) false + m (String.mk t) false ≤ m (String.mk (s ++ t)) false) :
    ∀ l : List Char,
      ((l.map (fun c => m (String.mk [c]) false)).sum ≤ m (String.mk l) false)
  | [] => by simpa using h0 (String.mk []) false
  | c :: cs => by
    have ih := sum_char_measures_le m h0 hsup cs
    have h := hsup [c] cs
    simp only [List.map_cons, List.sum_cons, List.singleton_append] at h ⊢
    linarith

theorem getWordWidth_nonneg (m : String → Bool → ℚ) (h0 : ∀ s b, 0 ≤ m s b)
    (word : List Char) (isFocus : Bool) : 0 ≤ getWordWidth m word isFocus := by
  unfold getWordWidth
  split
  · exact h0 _ _
  · have h1 := h0 (String.mk (word.take (gwwMiddleIndex word.length))) false
    have h2 := h0 (String.mk ((word.drop (gwwMiddleIndex word.length)).take 1)) true
    have h3 := h0 (String.mk (word.drop (gwwMiddleIndex word.length + 1))) false
    dsimp only
    linarith

theorem getMiddleLetterOffset_nonneg (m : String → Bool → ℚ)
    (h0 : ∀ s b, 0 ≤ m s b) (word : List Char) :
    0 ≤ getMiddleLetterOffset m word := by
  unfold getMiddleLetterOffset
  have hsum : 0 ≤ ((word.take (gmloMiddleIndex word.length)).map
      (fun c => m (String.mk [c]) false)).sum := by
    apply List.sum_nonneg
    intro x hx
    obtain ⟨c, _, rfl⟩ := List.mem_map.mp hx
    exact h0 _ _
  have hmid := h0 (String.mk ((word.drop (gmloMiddleIndex word.length)).take 1)) true
  dsimp only
  linarith

theorem getMiddleLetterOffset_le_width (m : String → Bool → ℚ)
    (h0 : ∀ s b, 0 ≤ m s b)
    (hsup : ∀ s t : List Char,
      m (String.mk s) false + m (String.mk t) false ≤ m (String.mk (s ++ t)) false)
    (word : List Char) :
    getMiddleLetterOffset m word ≤ getWordWidth m word true := by
  have hsum := sum_char_measures_le m h0 hsup
      (word.take (gwwMiddleIndex word.length))
  have hmid := h0 (String.mk ((word.drop (gwwMiddleIndex word.length)).take 1)) true
  have hafter := h0 (String.mk (word.drop (gwwMiddleIndex word.length + 1))) false
  have hhalf : m (String.mk ((word.drop (gwwMiddleIndex word.length)).take 1)) true / 2 ≤
      m (String.mk ((word.drop (gwwMiddleIndex word.length)).take 1)) true :=
    half_le_self hmid
  have hix : gmloMiddleIndex word.length = gwwMiddleIndex word.length := rfl
  unfold getMiddleLetterOffset getWordWidth
  rw [hix]
  simp only [Bool.not_true]
  rw [if_neg (by simp)]
  linarith

theorem calcPositionsAux_chain (m : String → Bool → ℚ) (spacing : ℚ)
    (h0 : ∀ s b, 0 ≤ m s b)
    (hsup : ∀ s t : List Char,
      m (String.mk s) false + m (String.mk t) false ≤ m (String.mk (s ++ t)) false)
    (hsp : 0 < spacing) :
    ∀ (ws : List String) (cum : ℚ) (idx : Nat),
      List.Chain' (fun p q => p.startPosition ≤ q.startPosition ∧
        p.centerPosition < q.centerPosition) (calcPositionsAux m spacing cum idx ws)
  | [], _, _ => List.chain'_nil
  | [_], _, _ => List.chain'_singleton _
  | w :: w2 :: ws, cum, idx => by
    rw [calcPositionsAux, calcPositionsAux]
    refine List.Chain'.cons ?_ ?_
    · constructor
      · have hw := getWordWidth_nonneg m h0 w.data true
        dsimp only
        linarith
      · have hle := getMiddleLetterOffset_le_width m h0 hsup w.data
        have hnn := getMiddleLetterOffset_nonneg m h0 w2.data
        dsimp only
        linarith
    · rw [← calcPositionsAux]
      exact calcPositionsAux_chain m spacing h0 hsup hsp (w2 :: ws) _ _

end ReadFast

/-- C1: for every word sequence, under the measurement contract (widths are
non-negative and a string is at least as wide as the sum of its parts) and a
positive configured word spacing, the positional index built by
`WordMetrics._calculateWordPositions` has non-decreasing `startPosition` and
strictly increasing `centerPosition` in index. -/
theorem c1_layout_monotonic (m : String → Bool → ℚ) (spacing : ℚ)
    (words : List String)
    (h0 : ∀ s b, 0 ≤ m s b)
    (hsup : ∀ s t : List Char,
      m (String.mk s) false + m (String.mk t) false ≤ m (String.mk (s ++ t)) false)
    (hsp : 0 < spacing) (i : Nat)
    (h : i + 1 < (ReadFast.calculateWordPositions m spacing words).length) :
    ((ReadFast.calculateWordPositions m spacing words).get
        ⟨i, Nat.lt_of_succ_lt h⟩).startPosition ≤
      ((ReadFast.calculateWordPositions m spacing words).get ⟨i + 1, h⟩).startPosition ∧
    ((ReadFast.calculateWordPositions m spacing words).get
        ⟨i, Nat.lt_of_succ_lt h⟩).centerPosition <
      ((ReadFast.calculateWordPositions m spacing words).get ⟨i + 1, h⟩).centerPosition := by
  have hc : List.Chain' (fun p q => p.startPosition ≤ q.startPosition ∧
      p.centerPosition < q.centerPosition)
      (ReadFast.calculateWordPositions m spacing words) :=
    ReadFast.calcPositionsAux_chain m spacing h0 hsup hsp words 0 0
  rw [List.chain'_iff_get] at hc
  exact hc i (by omega)

/-- Witness for C1 at the code's own fallback measurement
(`text.length * 10`), spacing 8, words `["ab", "cd"]`. -/
theorem c1_layout_monotonic_witness :
    ((ReadFast.calculateWordPositions ReadFast.fallbackMeasure 8 ["ab", "cd"]).get
        ⟨0, by simp [ReadFast.calculateWordPositions, ReadFast.calcPositionsAux_length]⟩).centerPosition <
      ((ReadFast.calculateWordPositions ReadFast.fallbackMeasure 8 ["ab", "cd"]).get
        ⟨1, by simp [ReadFast.calculateWordPositions, ReadFast.calcPositionsAux_length]⟩).centerPosition := by
  have h0 : ∀ (s : String) (b : Bool), 0 ≤ ReadFast.fallbackMeasure s b := by
    intro s b
    unfold ReadFast.fallbackMeasure
    positivity
  have hsup : ∀ s t : List Char,
      ReadFast.fallbackMeasure (String.mk s) false +
        ReadFast.fallbackMeasure (String.mk t) false ≤
        ReadFast.fallbackMeasure (String.mk (s ++ t)) false := by
    intro s t
    simp only [ReadFast.fallbackMeasure, List.length_append]
    push_cast
    ring_nf
    exact le_refl _
  exact (c1_layout_monotonic ReadFast.fallbackMeasure 8 ["ab", "cd"] h0 hsup
    (by norm_num) 0 (by simp [ReadFast.calculateWordPositions, ReadFast.calcPositionsAux_length])).2

/-- C2: the center (focus) character index is the same function at all three
places that split a word into before/center/after spans
(`getWordWidth`, `getMiddleLetterOffset`, `_createWordElement`), it equals
the spec's rule `0` if `L ≤ 2` else `⌊L/2⌋`, in particular `1` for length 3
and `0` for length 2, and the rendering split of `_createWordElement` is the
same before/center/after split used by the width computation. -/
theorem c2_center_index_rule :
    (∀ L : Nat, ReadFast.gwwMiddleIndex L = ReadFast.specCenterIndex L ∧
        ReadFast.gmloMiddleIndex L = ReadFast.specCenterIndex L ∧
        ReadFast.cweMiddleIndex L = ReadFast.specCenterIndex L) ∧
    ReadFast.specCenterIndex 3 = 1 ∧ ReadFast.specCenterIndex 2 = 0 ∧
    (∀ word : List Char, ReadFast.createWordElementFocusSplit word =
      (String.mk (word.take (ReadFast.gwwMiddleIndex word.length)),
       String.mk ((word.drop (ReadFast.gwwMiddleIndex word.length)).take 1),
       String.mk (word.drop (ReadFast.gwwMiddleIndex word.length + 1)))) :=
  ⟨fun _ => ⟨rfl, rfl, rfl⟩, rfl, rfl, fun _ => rfl⟩

/-- C3: loading an empty word sequence is a synchronous hard failure — both
`WordMetrics` and `WordMarqueeEngine` constructors reject an empty `words`
array with an error, and for every non-empty array they succeed. -/
theorem c3_empty_words_hard_failure (m : String → Bool → ℚ) (spacing wpm : ℚ)
    (words : List String) :
    (words = [] →
      (∃ e, ReadFast.mkWordMarqueeEngine m spacing wpm words = Except.error e) ∧
      (∃ e, ReadFast.mkWordMetrics m spacing words = Except.error e)) ∧
    (words ≠ [] →
      (∃ x, ReadFast.mkWordMarqueeEngine m spacing wpm words = Except.ok x) ∧
      (∃ x, ReadFast.mkWordMetrics m spacing words = Except.ok x)) := by
  constructor
  · rintro rfl
    exact ⟨⟨_, rfl⟩, ⟨_, rfl⟩⟩
  · intro h
    have hne : words.isEmpty = false := by
      simpa [List.isEmpty_iff] using h
    constructor
    · exact ⟨⟨⟨words, ReadFast.calculateWordPositions m spacing words⟩,
        ReadFast.initializeSentences words, ReadFast.initialEngineState wpm⟩, by
          simp [ReadFast.mkWordMarqueeEngine, ReadFast.mkWordMetrics, hne]⟩
    · exact ⟨⟨words, ReadFast.calculateWordPositions m spacing words⟩, by
        simp [ReadFast.mkWordMetrics, hne]⟩

/-- Witness for C3: the constructors fail on `[]` and succeed on `["hi"]`. -/
theorem c3_empty_words_hard_failure_witness :
    (∃ e, ReadFast.mkWordMarqueeEngine ReadFast.fallbackMeasure 8 250 [] =
      Except.error e) ∧
    (∃ x, ReadFast.mkWordMarqueeEngine ReadFast.fallbackMeasure 8 250 ["hi"] =
      Except.ok x) :=
  ⟨((c3_empty_words_hard_failure ReadFast.fallbackMeasure 8 250 []).1 rfl).1,
   ((c3_empty_words_hard_failure ReadFast.fallbackMeasure 8 250 ["hi"]).2
      (by simp)).1⟩

/-- Counterexample for C8: `saveState` persists only
`{ mode, focusIndex, sentenceIndex, wpm }` for the reader, so a playing
state decodes to a paused one — `isPlaying` does not round-trip. -/
theorem c8_roundtrip_counterexample :
    (ReadFast.restoreReadfastState
        (ReadFast.saveReadfastState
          { ReadFast.initialEngineState 250 with isPlaying := true })
        (ReadFast.initialEngineState 250)).isPlaying = false ∧
    ({ ReadFast.initialEngineState 250 with
        isPlaying := true } : ReadFast.EngineSt).isPlaying = true ∧
    ReadFast.restoreReadfastState
        (ReadFast.saveReadfastState
          { ReadFast.initialEngineState 250 with isPlaying := true })
        (ReadFast.initialEngineState 250) ≠
      { ReadFast.initialEngineState 250 with isPlaying := true } := by
  refine ⟨rfl, rfl, ?_⟩
  intro h
  have := congrArg ReadFast.EngineSt.isPlaying h
  simp [ReadFast.restoreReadfastState, ReadFast.saveReadfastState,
    ReadFast.initialEngineState] at this

/-- C8 amended: the persisted reader fields are exactly
`mode`, `focusIndex`, `sentenceIndex` and `wpm`, and the
`saveState`/`loadState` pair round-trips those four fields exactly
(for any non-zero `wpm`); `isPlaying` is not part of the snapshot (restored
sessions are paused) and this engine's state has no `scrollOffset`. -/
theorem c8_roundtrip_persisted_fields (st fresh : ReadFast.EngineSt)
    (hwpm : st.wpm ≠ 0) :
    (ReadFast.restoreReadfastState (ReadFast.saveReadfastState st) fresh).mode =
        st.mode ∧
    (ReadFast.restoreReadfastState (ReadFast.saveReadfastState st) fresh).focusIndex =
        st.focusIndex ∧
    (ReadFast.restoreReadfastState (ReadFast.saveReadfastState st) fresh).sentenceIndex =
        st.sentenceIndex ∧
    (ReadFast.restoreReadfastState (ReadFast.saveReadfastState st) fresh).wpm =
        st.wpm := by
  refine ⟨rfl, rfl, rfl, ?_⟩
  simp [ReadFast.restoreReadfastState, ReadFast.saveReadfastState, hwpm]

/-- Witness for C8's amended round-trip at a concrete state. -/
theorem c8_roundtrip_persisted_fields_witness :
    (ReadFast.restoreReadfastState
        (ReadFast.saveReadfastState (ReadFast.initialEngineState 250))
        (ReadFast.initialEngineState 100)).wpm =
      (ReadFast.initialEngineState 250).wpm :=
  (c8_roundtrip_persisted_fields (ReadFast.initialEngineState 250)
    (ReadFast.initialEngineState 100) (by norm_num [ReadFast.initialEngineState])).2.2.2

namespace ReadFast

theorem mem_dropWhile_of_not (p : Char → Bool) :
    ∀ (l : List Char) (c : Char), c ∈ l → p c = false → c ∈ l.dropWhile p
  | a :: t, c, hc, hp => by
    by_cases ha : p a = true
    · rw [List.dropWhile_cons_of_pos ha]
      rcases List.mem_cons.mp hc with rfl | ht
      · rw [ha] at hp; exact absurd hp (by simp)
      · exact mem_dropWhile_of_not p t c ht hp
    · rw [List.dropWhile_cons_of_neg ha]
      exact hc

theorem mem_jsTrim_of_not_ws (l : List Char) (c : Char)
    (hc : c ∈ l) (hp : jsWs c = false) : c ∈ jsTrim l := by
  unfold jsTrim
  rw [List.mem_reverse]
  apply mem_dropWhile_of_not _ _ _ _ hp
  rw [List.mem_reverse]
  exact mem_dropWhile_of_not _ _ _ hc hp

theorem splitWsAux_nil_imp : ∀ (l acc : List Char), splitWsAux acc l = [] → acc = []
  | [], acc, h => by
    by_cases ha : acc.isEmpty
    · simpa using ha
    · rw [splitWsAux, if_neg ha] at h
      exact absurd h (by simp)
  | c :: rest, acc, h => by
    rw [splitWsAux] at h
    by_cases hc : jsWs c = true
    · rw [if_pos hc] at h
      by_cases ha : acc.isEmpty
      · simpa using ha
      · rw [if_neg ha] at h
        exact absurd h (by simp)
    · rw [if_neg hc] at h
      have := splitWsAux_nil_imp rest (c :: acc) h
      exact absurd this (by simp)

theorem splitWsAux_ne_nil : ∀ (l acc : List Char) (c : Char),
    c ∈ l → jsWs c = false → splitWsAux acc l ≠ []
  | a :: t, acc, c, hc, hp => by
    rw [splitWsAux]
    by_cases ha : jsWs a = true
    · have hct : c ∈ t := by
        rcases List.mem_cons.mp hc with rfl | ht
        · rw [ha] at hp; exact absurd hp (by simp)
        · exact ht
      rw [if_pos ha]
      by_cases hacc : acc.isEmpty
      · rw [if_pos hacc]
        exact splitWsAux_ne_nil t [] c hct hp
      · rw [if_neg hacc]
        simp
    · rw [if_neg ha]
      intro h
      have := splitWsAux_nil_imp t (a :: acc) h
      exact absurd this (by simp)

theorem splitWsF_ne_nil (l : List Char) (c : Char)
    (hc : c ∈ l) (hp : jsWs c = false) : splitWsF l ≠ [] :=
  splitWsAux_ne_nil l [] c hc hp

theorem exists_not_ws_of_dropWhile_ne_nil :
    ∀ l : List Char, l.dropWhile jsWs ≠ [] →
      ∃ c ∈ l.dropWhile jsWs, jsWs c = false
  | a :: t, h => by
    by_cases ha : jsWs a = true
    · rw [List.dropWhile_cons_of_pos ha] at h ⊢
      exact exists_not_ws_of_dropWhile_ne_nil t h
    · rw [List.dropWhile_cons_of_neg ha] at h ⊢
      exact ⟨a, List.mem_cons_self a t, by simpa using ha⟩

theorem exists_not_ws_of_jsTrim_ne_nil (l : List Char)
    (h : jsTrim l ≠ []) : ∃ c ∈ jsTrim l, jsWs c = false := by
  unfold jsTrim at h ⊢
  have h2 : (l.dropWhile jsWs).reverse.dropWhile jsWs ≠ [] := by
    intro hnil
    rw [hnil] at h
    simp at h
  obtain ⟨c, hc, hws⟩ :=
    exists_not_ws_of_dropWhile_ne_nil (l.dropWhile jsWs).reverse h2
  exact ⟨c, List.mem_reverse.mpr hc, hws⟩

theorem detectAux_tokens_pos :
    ∀ (rest cur : List Char), ∀ s ∈ detectAux cur rest, splitWsF s.data ≠ [] := by
  intro rest
  induction rest with
  | nil =>
    intro cur s hs
    rw [detectAux] at hs
    by_cases hemp : (jsTrim cur).isEmpty
    · rw [if_pos hemp] at hs
      simp at hs
    · rw [if_neg hemp] at hs
      rcases List.mem_singleton.mp hs with rfl
      obtain ⟨c, hc, hws⟩ := exists_not_ws_of_jsTrim_ne_nil cur
        (by simpa [List.isEmpty_iff] using hemp)
      exact splitWsF_ne_nil _ c hc hws
  | cons a t ih =>
    intro cur s hs
    rw [detectAux] at hs
    by_cases hpunct : a = '.' ∨ a = '!' ∨ a = '?'
    · rw [if_pos hpunct] at hs
      by_cases habb : (!abbreviations.contains
          (String.mk (stripTrailingDot (lastWordOf (cur ++ [a]))))) = true
      · rw [if_pos habb] at hs
        dsimp only at hs
        split at hs
        · rcases List.mem_cons.mp hs with rfl | htail
          · have hwsa : jsWs a = false := by
              rcases hpunct with rfl | rfl | rfl <;> decide
            have hmem : a ∈ cur ++ [a] := by simp
            exact splitWsF_ne_nil _ a (mem_jsTrim_of_not_ws _ a hmem hwsa) hwsa
          · exact ih [] s htail
        · exact ih (cur ++ [a]) s hs
      · rw [if_neg habb] at hs
        exact ih (cur ++ [a]) s hs
    · rw [if_neg hpunct] at hs
      exact ih (cur ++ [a]) s hs

theorem detectSentences_tokens_pos (text : String) :
    ∀ s ∈ detectSentences text, splitWsF s.data ≠ [] := by
  intro s hs
  unfold detectSentences at hs
  by_cases h : (jsTrim text.data).isEmpty
  · rw [if_pos h] at hs
    simp at hs
  · rw [if_neg h] at hs
    exact detectAux_tokens_pos text.data [] s hs

end ReadFast

namespace ReadFast

theorem buildSentenceMap_chain :
    ∀ (sents : List String) (idx : Nat) (w : Int),
      List.Chain' (fun a b => b.startWordIndex = a.endWordIndex + 1)
        (buildSentenceMap idx w sents)
  | [], _, _ => List.chain'_nil
  | [_], _, _ => List.chain'_singleton _
  | s :: s2 :: rest, idx, w => by
    rw [buildSentenceMap, buildSentenceMap]
    refine List.Chain'.cons ?_ ?_
    · show w + (countTokens s : Int) = w + (countTokens s : Int) - 1 + 1
      ring
    · rw [← buildSentenceMap]
      exact buildSentenceMap_chain (s2 :: rest) (idx + 1) (w + (countTokens s : Int))

theorem buildSentenceMap_start_le_end :
    ∀ (sents : List String) (idx : Nat) (w : Int),
      (∀ s ∈ sents, splitWsF s.data ≠ []) →
      ∀ sp ∈ buildSentenceMap idx w sents, sp.startWordIndex ≤ sp.endWordIndex
  | [], _, _, _ => by simp [buildSentenceMap]
  | s :: rest, idx, w, h => by
    intro sp hsp
    rw [buildSentenceMap] at hsp
    rcases List.mem_cons.mp hsp with rfl | htail
    · show w ≤ w + (countTokens s : Int) - 1
      have h1 : splitWsF s.data ≠ [] := h s (by simp)
      have h2 : 0 < countTokens s := List.length_pos.mpr h1
      omega
    · exact buildSentenceMap_start_le_end rest (idx + 1) (w + (countTokens s : Int))
        (fun x hx => h x (by simp [hx])) sp htail

theorem buildSentenceMap_mem_bounds :
    ∀ (sents : List String) (idx : Nat) (w : Int),
      ∀ sp ∈ buildSentenceMap idx w sents,
        w ≤ sp.startWordIndex ∧
        sp.endWordIndex ≤ w + ((sents.map countTokens).sum : Int) - 1
  | [], _, _ => by simp [buildSentenceMap]
  | s :: rest, idx, w => by
    intro sp hsp
    rw [buildSentenceMap] at hsp
    rcases List.mem_cons.mp hsp with rfl | htail
    · refine ⟨le_refl w, ?_⟩
      show w + (countTokens s : Int) - 1 ≤
        w + (((s :: rest).map countTokens).sum : Int) - 1
      rw [List.map_cons, List.sum_cons, Nat.cast_add]
      omega
    · have ih := buildSentenceMap_mem_bounds rest (idx + 1)
        (w + (countTokens s : Int)) sp htail
      rw [List.map_cons, List.sum_cons, Nat.cast_add]
      omega

theorem buildSentenceMap_pairwise :
    ∀ (sents : List String) (idx : Nat) (w : Int),
      List.Pairwise (fun a b => a.endWordIndex < b.startWordIndex)
        (buildSentenceMap idx w sents)
  | [], _, _ => List.Pairwise.nil
  | s :: rest, idx, w => by
    rw [buildSentenceMap]
    refine List.Pairwise.cons ?_
      (buildSentenceMap_pairwise rest (idx + 1) (w + (countTokens s : Int)))
    intro b hb
    have hbd := (buildSentenceMap_mem_bounds rest (idx + 1)
      (w + (countTokens s : Int)) b hb).1
    show w + (countTokens s : Int) - 1 < b.startWordIndex
    omega

theorem buildSentenceMap_coverage :
    ∀ (sents : List String) (idx : Nat) (w : Int),
      (∀ s ∈ sents, splitWsF s.data ≠ []) →
      ∀ i : Int, w ≤ i → i < w + ((sents.map countTokens).sum : Int) →
        ∃ sp ∈ buildSentenceMap idx w sents,
          sp.startWordIndex ≤ i ∧ i ≤ sp.endWordIndex
  | [], _, w, _, i => by
    intro h1 h2
    exfalso
    simp only [List.map_nil, List.sum_nil, Nat.cast_zero, add_zero] at h2
    omega
  | s :: rest, idx, w, h, i => by
    intro h1 h2
    by_cases hcase : i ≤ w + (countTokens s : Int) - 1
    · rw [buildSentenceMap]
      exact ⟨_, List.mem_cons_self _ _, h1, hcase⟩
    · push_neg at hcase
      have h2a : i < w + (countTokens s : Int) +
          ((rest.map countTokens).sum : Int) := by
        rw [List.map_cons, List.sum_cons, Nat.cast_add] at h2
        omega
      obtain ⟨sp, hmem, hlo, hhi⟩ := buildSentenceMap_coverage rest (idx + 1)
        (w + (countTokens s : Int)) (fun x hx => h x (by simp [hx])) i
        (by omega) h2a
      refine ⟨sp, ?_, hlo, hhi⟩
      rw [buildSentenceMap]
      exact List.mem_cons_of_mem _ hmem

end ReadFast

/-- C5 amended: the sentence map's spans are contiguous (each span starts one
past the previous span's end), ordered and non-overlapping, the first span
starts at word index 0, and each span's range is non-empty; when the
segmenter's own token counts sum to the canonical word count (the alignment
the source only approximates, per §4.3/§9 of the spec), the union of the
spans' word-index ranges equals `[0, wordCount-1]`. -/
theorem c5_sentence_map_structure (words : List String) :
    (∀ sp, (ReadFast.initializeSentences words).head? = some sp →
      sp.startWordIndex = 0) ∧
    List.Chain' (fun a b => b.startWordIndex = a.endWordIndex + 1)
      (ReadFast.initializeSentences words) ∧
    (∀ sp ∈ ReadFast.initializeSentences words,
      sp.startWordIndex ≤ sp.endWordIndex) ∧
    List.Pairwise (fun a b => a.endWordIndex < b.startWordIndex)
      (ReadFast.initializeSentences words) ∧
    ((((ReadFast.detectSentences
          (String.intercalate " " words)).map ReadFast.countTokens).sum : Int) =
        (words.length : Int) →
      ∀ i : Int, (0 ≤ i ∧ i < (words.length : Int)) ↔
        ∃ sp ∈ ReadFast.initializeSentences words,
          sp.startWordIndex ≤ i ∧ i ≤ sp.endWordIndex) := by
  refine ⟨?_, ?_, ?_, ?_, ?_⟩
  · intro sp hsp
    unfold ReadFast.initializeSentences at hsp
    cases hsents : ReadFast.detectSentences (String.intercalate " " words) with
    | nil => rw [hsents] at hsp; simp [ReadFast.buildSentenceMap] at hsp
    | cons s rest =>
      rw [hsents] at hsp
      rw [ReadFast.buildSentenceMap] at hsp
      simp only [List.head?_cons, Option.some.injEq] at hsp
      rw [← hsp]
  · exact ReadFast.buildSentenceMap_chain _ 0 0
  · exact ReadFast.buildSentenceMap_start_le_end _ 0 0
      (ReadFast.detectSentences_tokens_pos _)
  · exact ReadFast.buildSentenceMap_pairwise _ 0 0
  · intro hsum i
    constructor
    · intro ⟨h0, hlt⟩
      exact ReadFast.buildSentenceMap_coverage _ 0 0
        (ReadFast.detectSentences_tokens_pos _) i h0 (by omega)
    · intro ⟨sp, hmem, hlo, hhi⟩
      have hbd := ReadFast.buildSentenceMap_mem_bounds _ 0 0 sp hmem
      omega

/-- Witness for C5's alignment-conditional coverage on the two-sentence
document `["One.", "Two."]`: word index 1 is covered by a span. -/
theorem c5_sentence_map_structure_witness :
    ∃ sp ∈ ReadFast.initializeSentences ["One.", "Two."],
      sp.startWordIndex ≤ 1 ∧ (1 : Int) ≤ sp.endWordIndex :=
  (((c5_sentence_map_structure ["One.", "Two."]).2.2.2.2 (by decide) 1).mp
    (by decide))

/-- Counterexample for C5 as stated: for the single-token document
`["a.\"B"]` (a period followed by a quote and an uppercase letter inside one
token) the segmenter cuts mid-token, the second span covers word index 1,
yet the document has only one word — the union of the spans' ranges is not
`[0, wordCount-1]`. -/
theorem c5_coverage_counterexample :
    (∃ sp ∈ ReadFast.initializeSentences ["a.\"B"],
      sp.startWordIndex ≤ 1 ∧ (1 : Int) ≤ sp.endWordIndex) ∧
    ¬ ((0 : Int) ≤ 1 ∧ (1 : Int) < ((["a.\"B"] : List String).length : Int)) := by
  constructor
  · decide
  · decide

namespace ReadFast

@[simp] theorem clearScheduled_mode (st : EngineSt) :
    (clearScheduled st).mode = st.mode := by
  unfold clearScheduled; cases st.intervalId <;> rfl

@[simp] theorem clearScheduled_isPlaying (st : EngineSt) :
    (clearScheduled st).isPlaying = st.isPlaying := by
  unfold clearScheduled; cases st.intervalId <;> rfl

@[simp] theorem clearScheduled_focusIndex (st : EngineSt) :
    (clearScheduled st).focusIndex = st.focusIndex := by
  unfold clearScheduled; cases st.intervalId <;> rfl

@[simp] theorem clearScheduled_sentenceIndex (st : EngineSt) :
    (clearScheduled st).sentenceIndex = st.sentenceIndex := by
  unfold clearScheduled; cases st.intervalId <;> rfl

@[simp] theorem clearScheduled_wpm (st : EngineSt) :
    (clearScheduled st).wpm = st.wpm := by
  unfold clearScheduled; cases st.intervalId <;> rfl

@[simp] theorem stopSim_mode (st : EngineSt) : (stopSim st).mode = st.mode := by
  unfold stopSim; simp

@[simp] theorem stopSim_isPlaying (st : EngineSt) :
    (stopSim st).isPlaying = false := by
  unfold stopSim; simp

@[simp] theorem stopSim_focusIndex (st : EngineSt) :
    (stopSim st).focusIndex = st.focusIndex := by
  unfold stopSim; simp

@[simp] theorem stopSim_sentenceIndex (st : EngineSt) :
    (stopSim st).sentenceIndex = st.sentenceIndex := by
  unfold stopSim; simp

@[simp] theorem stopSim_wpm (st : EngineSt) : (stopSim st).wpm = st.wpm := by
  unfold stopSim; simp

@[simp] theorem installInterval_mode (st : EngineSt) (a : TimerAction) (d : ℚ) :
    (installInterval st a d).mode = st.mode := rfl

@[simp] theorem installInterval_isPlaying (st : EngineSt) (a : TimerAction) (d : ℚ) :
    (installInterval st a d).isPlaying = st.isPlaying := rfl

@[simp] theorem installInterval_focusIndex (st : EngineSt) (a : TimerAction) (d : ℚ) :
    (installInterval st a d).focusIndex = st.focusIndex := rfl

@[simp] theorem installInterval_sentenceIndex (st : EngineSt) (a : TimerAction) (d : ℚ) :
    (installInterval st a d).sentenceIndex = st.sentenceIndex := rfl

@[simp] theorem installTimeout_mode (st : EngineSt) (a : TimerAction) (d : ℚ) :
    (installTimeout st a d).mode = st.mode := rfl

@[simp] theorem installTimeout_isPlaying (st : EngineSt) (a : TimerAction) (d : ℚ) :
    (installTimeout st a d).isPlaying = st.isPlaying := rfl

@[simp] theorem installTimeout_focusIndex (st : EngineSt) (a : TimerAction) (d : ℚ) :
    (installTimeout st a d).focusIndex = st.focusIndex := rfl

@[simp] theorem installTimeout_sentenceIndex (st : EngineSt) (a : TimerAction) (d : ℚ) :
    (installTimeout st a d).sentenceIndex = st.sentenceIndex := rfl

theorem spanAt_mem (smap : List SentenceSpan) (i : Int) (sp : SentenceSpan)
    (h : spanAt smap i = some sp) : sp ∈ smap := by
  unfold spanAt at h
  split at h
  · exact List.get?_mem h
  · exact absurd h (by simp)

theorem spanAt_isSome (smap : List SentenceSpan) (i : Int)
    (h0 : 0 ≤ i) (hlt : i < (smap.length : Int)) :
    ∃ sp, spanAt smap i = some sp := by
  unfold spanAt
  rw [if_pos h0]
  cases h : smap.get? i.toNat with
  | none =>
    rw [List.get?_eq_none] at h
    omega
  | some sp => exact ⟨sp, rfl⟩

theorem toggleFind_spec :
    ∀ (l : List SentenceSpan) (j : Nat) (f : Int) (i : Nat) (sp : SentenceSpan),
      toggleFind l j f = some (i, sp) → j ≤ i ∧ i - j < l.length ∧ sp ∈ l
  | [], _, _, _, _, h => by exact absurd h (by simp [toggleFind])
  | a :: rest, j, f, i, sp, h => by
    rw [toggleFind] at h
    split at h
    · rcases Prod.mk.injEq _ _ _ _ ▸ Option.some.injEq _ _ ▸ h with ⟨rfl, rfl⟩
      exact ⟨le_refl _, by simp, List.mem_cons_self _ _⟩
    · obtain ⟨h1, h2, h3⟩ := toggleFind_spec rest (j + 1) f i sp h
      exact ⟨by omega, by simp only [List.length_cons]; omega,
        List.mem_cons_of_mem _ h3⟩

end ReadFast

namespace ReadFast

theorem goodDoc_wordCount_pos (doc : Doc) (hg : GoodDoc doc) :
    0 < doc.wordCount := by
  unfold Doc.wordCount
  have h : 0 < doc.words.length := List.length_pos.mpr hg.1
  omega

theorem focusInv_stopSim (doc : Doc) (st : EngineSt) (h : FocusInv doc st) :
    FocusInv doc (stopSim st) := by
  unfold FocusInv at h ⊢
  simpa using h

theorem focusInv_advanceWord (doc : Doc) (st : EngineSt) (h : FocusInv doc st) :
    FocusInv doc (advanceWordSim doc st) := by
  obtain ⟨h1, h2, h3, h4⟩ := h
  unfold advanceWordSim
  by_cases hc : st.focusIndex < doc.wordCount - 1
  · rw [if_pos hc]
    exact ⟨by dsimp only; omega, by dsimp only; omega, h3, h4⟩
  · rw [if_neg hc]
    exact focusInv_stopSim doc st ⟨h1, h2, h3, h4⟩

theorem focusInv_advanceSentence (doc : Doc) (st : EngineSt) (hg : GoodDoc doc)
    (h : FocusInv doc st) : FocusInv doc (advanceSentenceSim doc st) := by
  obtain ⟨h1, h2, h3, h4⟩ := h
  unfold advanceSentenceSim
  by_cases hc : st.sentenceIndex < (doc.smap.length : Int) - 1
  · rw [if_pos hc]
    dsimp only
    cases hsp : spanAt doc.smap (st.sentenceIndex + 1) with
    | some sp =>
      dsimp only
      have hb := hg.2.2 sp (spanAt_mem _ _ _ hsp)
      by_cases hif : st.isPlaying = true ∧ st.mode = Mode.sentence
      · rw [if_pos hif]
        exact ⟨by simp [hb.1], by simp [hb.2], by simp; omega, by simp; omega⟩
      · rw [if_neg hif]
        exact ⟨hb.1, hb.2, by dsimp only; omega, by dsimp only; omega⟩
    | none =>
      dsimp only
      exact focusInv_stopSim doc _ ⟨h1, h2, by dsimp only; omega, by dsimp only; omega⟩
  · rw [if_neg hc]
    exact focusInv_stopSim doc st ⟨h1, h2, h3, h4⟩

theorem focusInv_start (doc : Doc) (st : EngineSt) (hg : GoodDoc doc)
    (h : FocusInv doc st) : FocusInv doc (startSim doc st) := by
  unfold startSim
  by_cases hp : st.isPlaying = true
  · rw [if_pos hp]
    exact h
  · rw [if_neg hp]
    dsimp only
    by_cases hm : st.mode = Mode.sentence
    · rw [if_pos hm]
      exact focusInv_advanceSentence doc _ hg h
    · rw [if_neg hm]
      exact h

theorem focusInv_setSpeed (doc : Doc) (v : ℚ) (st : EngineSt)
    (h : FocusInv doc st) : FocusInv doc (setSpeedSim v st) := by
  unfold setSpeedSim
  dsimp only
  split
  · unfold FocusInv at h ⊢
    simpa using h
  · exact h

end ReadFast

namespace ReadFast

theorem focusInv_wheel (doc : Doc) (d : Int) (st : EngineSt) (hg : GoodDoc doc)
    (h : FocusInv doc st) : FocusInv doc (wheelSim doc d st) := by
  obtain ⟨h1, h2, h3, h4⟩ := h
  unfold wheelSim
  by_cases hm : st.mode = Mode.sentence
  · rw [if_pos hm]
    by_cases hd : 0 < d
    · rw [if_pos hd]
      by_cases hs : 0 < st.sentenceIndex
      · rw [if_pos hs]
        dsimp only
        cases hsp : spanAt doc.smap (st.sentenceIndex - 1) with
        | some sp =>
          dsimp only
          have hb := hg.2.2 sp (spanAt_mem _ _ _ hsp)
          exact ⟨by dsimp only; omega, by dsimp only; omega,
            by dsimp only; omega, by dsimp only; omega⟩
        | none =>
          dsimp only
          exact ⟨h1, h2, by dsimp only; omega, by dsimp only; omega⟩
      · rw [if_neg hs]
        exact ⟨h1, h2, h3, h4⟩
    · rw [if_neg hd]
      by_cases hd2 : d < 0
      · rw [if_pos hd2]
        by_cases hs : st.sentenceIndex < (doc.smap.length : Int) - 1
        · rw [if_pos hs]
          dsimp only
          cases hsp : spanAt doc.smap (st.sentenceIndex + 1) with
          | some sp =>
            dsimp only
            have hb := hg.2.2 sp (spanAt_mem _ _ _ hsp)
            exact ⟨by dsimp only; omega, by dsimp only; omega,
              by dsimp only; omega, by dsimp only; omega⟩
          | none =>
            dsimp only
            exact ⟨h1, h2, by dsimp only; omega, by dsimp only; omega⟩
        · rw [if_neg hs]
          exact ⟨h1, h2, h3, h4⟩
      · rw [if_neg hd2]
        exact ⟨h1, h2, h3, h4⟩
  · rw [if_neg hm]
    by_cases hd : 0 < d
    · rw [if_pos hd]
      by_cases hf : 0 < st.focusIndex
      · rw [if_pos hf]
        exact ⟨by dsimp only; omega, by dsimp only; omega, h3, h4⟩
      · rw [if_neg hf]
        exact ⟨h1, h2, h3, h4⟩
    · rw [if_neg hd]
      by_cases hd2 : d < 0
      · rw [if_pos hd2]
        by_cases hf : st.focusIndex < doc.wordCount - 1
        · rw [if_pos hf]
          exact ⟨by dsimp only; omega, by dsimp only; omega, h3, h4⟩
        · rw [if_neg hf]
          exact ⟨h1, h2, h3, h4⟩
      · rw [if_neg hd2]
        exact ⟨h1, h2, h3, h4⟩

theorem focusInv_nextPage (doc : Doc) (st : EngineSt) (hg : GoodDoc doc)
    (h : FocusInv doc st) : FocusInv doc (nextPageSim doc st) := by
  obtain ⟨h1, h2, h3, h4⟩ := h
  have hwc := goodDoc_wordCount_pos doc hg
  unfold nextPageSim
  by_cases hm : st.mode = Mode.sentence
  · rw [if_pos hm]
    dsimp only
    cases hsp : spanAt doc.smap
        (min (st.sentenceIndex + 10) ((doc.smap.length : Int) - 1)) with
    | some sp =>
      dsimp only
      have hb := hg.2.2 sp (spanAt_mem _ _ _ hsp)
      exact ⟨by dsimp only; omega, by dsimp only; omega,
        by dsimp only; omega, by dsimp only; omega⟩
    | none =>
      dsimp only
      exact ⟨h1, h2, by dsimp only; omega, by dsimp only; omega⟩
  · rw [if_neg hm]
    dsimp only
    rw [Int.fdiv_eq_ediv _ (le_of_lt hg.2.1)]
    have hq0 : 0 ≤ st.focusIndex / doc.wordsPerPage :=
      Int.ediv_nonneg h1 (le_of_lt hg.2.1)
    have hqp : 0 < (st.focusIndex / doc.wordsPerPage + 1) * doc.wordsPerPage :=
      mul_pos (by omega) hg.2.1
    exact ⟨by dsimp only; omega, by dsimp only; omega, h3, h4⟩

theorem focusInv_prevPage (doc : Doc) (st : EngineSt) (hg : GoodDoc doc)
    (h : FocusInv doc st) : FocusInv doc (prevPageSim doc st) := by
  obtain ⟨h1, h2, h3, h4⟩ := h
  have hwc := goodDoc_wordCount_pos doc hg
  unfold prevPageSim
  by_cases hm : st.mode = Mode.sentence
  · rw [if_pos hm]
    dsimp only
    cases hsp : spanAt doc.smap (max (st.sentenceIndex - 10) 0) with
    | some sp =>
      dsimp only
      have hb := hg.2.2 sp (spanAt_mem _ _ _ hsp)
      exact ⟨by dsimp only; omega, by dsimp only; omega,
        by dsimp only; omega, by dsimp only; omega⟩
    | none =>
      dsimp only
      exact ⟨h1, h2, by dsimp only; omega, by dsimp only; omega⟩
  · rw [if_neg hm]
    dsimp only
    rw [Int.fdiv_eq_ediv _ (le_of_lt hg.2.1)]
    have hqm : st.focusIndex / doc.wordsPerPage * doc.wordsPerPage ≤ st.focusIndex :=
      Int.ediv_mul_le _ (by have := hg.2.1; omega)
    have hring : (st.focusIndex / doc.wordsPerPage - 1) * doc.wordsPerPage =
        st.focusIndex / doc.wordsPerPage * doc.wordsPerPage - doc.wordsPerPage := by
      ring
    have hwpp := hg.2.1
    exact ⟨by dsimp only; omega, by dsimp only; omega, h3, h4⟩

theorem focusInv_fire (doc : Doc) (id : Nat) (st : EngineSt) (hg : GoodDoc doc)
    (h : FocusInv doc st) : FocusInv doc (fireTimerSim doc id st) := by
  unfold fireTimerSim
  cases hf : st.timers.find? (fun t => t.id == id) with
  | none => exact h
  | some t =>
    dsimp only
    have hst1 : FocusInv doc (if t.repeating = true then st
        else { st with timers := st.timers.filter (fun u => u.id ≠ id) }) := by
      split
      · exact h
      · exact h
    cases ha : t.action with
    | advWord => exact focusInv_advanceWord doc _ hst1
    | advSentence => exact focusInv_advanceSentence doc _ hg hst1

theorem focusInv_toggleMode (doc : Doc) (st : EngineSt) (hg : GoodDoc doc)
    (h : FocusInv doc st) : FocusInv doc (toggleModeSim doc st) := by
  obtain ⟨h1, h2, h3, h4⟩ := h
  unfold toggleModeSim
  dsimp only
  split
  all_goals try apply focusInv_start doc _ hg
  all_goals
    split
  case isTrue.isTrue =>
    cases htf : toggleFind doc.smap 0 (stopSim st).focusIndex with
    | some pair =>
      obtain ⟨i, sp⟩ := pair
      dsimp only
      have hspec := toggleFind_spec doc.smap 0 (stopSim st).focusIndex i sp htf
      have hb := hg.2.2 sp hspec.2.2
      have hlen : i < doc.smap.length := by omega
      exact ⟨by dsimp only; omega, by dsimp only; omega,
        by dsimp only; omega, by dsimp only; omega⟩
    | none =>
      dsimp only
      refine ⟨?_, ?_, ?_, ?_⟩ <;> simp <;> omega
  case isTrue.isFalse =>
    refine ⟨?_, ?_, ?_, ?_⟩ <;> simp <;> omega
  case isFalse.isTrue =>
    cases htf : toggleFind doc.smap 0 (stopSim st).focusIndex with
    | some pair =>
      obtain ⟨i, sp⟩ := pair
      dsimp only
      have hspec := toggleFind_spec doc.smap 0 (stopSim st).focusIndex i sp htf
      have hb := hg.2.2 sp hspec.2.2
      have hlen : i < doc.smap.length := by omega
      exact ⟨by dsimp only; omega, by dsimp only; omega,
        by dsimp only; omega, by dsimp only; omega⟩
    | none =>
      dsimp only
      refine ⟨?_, ?_, ?_, ?_⟩ <;> simp <;> omega
  case isFalse.isFalse =>
    refine ⟨?_, ?_, ?_, ?_⟩ <;> simp <;> omega

end ReadFast

namespace ReadFast

theorem focusInv_step (doc : Doc) (op : Op) (st : EngineSt) (hg : GoodDoc doc)
    (h : FocusInv doc st) : FocusInv doc (stepSim doc op st) := by
  cases op with
  | start => exact focusInv_start doc st hg h
  | stop => exact focusInv_stopSim doc st h
  | toggleMode => exact focusInv_toggleMode doc st hg h
  | nextPage => exact focusInv_nextPage doc st hg h
  | prevPage => exact focusInv_prevPage doc st hg h
  | setSpeed v => exact focusInv_setSpeed doc v st h
  | wheel d => exact focusInv_wheel doc d st hg h
  | fire id => exact focusInv_fire doc id st hg h

theorem focusInv_run (doc : Doc) (ops : List Op) (st : EngineSt) (hg : GoodDoc doc)
    (h : FocusInv doc st) : FocusInv doc (runSim doc ops st) := by
  induction ops generalizing st with
  | nil => exact h
  | cons op rest ih => exact ih (stepSim doc op st) (focusInv_step doc op st hg h)

end ReadFast

/-- C4 amended: from a freshly loaded document, `0 ≤ focusIndex < wordCount`
holds after every sequence of engine operations (scheduled word/sentence
advances, wheel steps, page seeks, mode toggles, start/stop/speed changes)
provided every sentence span's `startWordIndex` is a valid word index —
the alignment that holds whenever the segmenter's re-tokenization agrees
with the canonical word sequence; out-of-range page targets are clamped via
`min`/`max` rather than raised, and the word-mode advance at the last index
stops playback instead of incrementing. -/
theorem c4_focus_index_invariant (words : List String) (wpp : Int) (wpm : ℚ)
    (ops : List ReadFast.Op)
    (hw : words ≠ []) (hwpp : 0 < wpp)
    (hspan : ∀ sp ∈ ReadFast.initializeSentences words,
      sp.startWordIndex < (words.length : Int)) :
    (0 ≤ (ReadFast.runSim ⟨words, wpp⟩ ops
        (ReadFast.initialEngineState wpm)).focusIndex ∧
      (ReadFast.runSim ⟨words, wpp⟩ ops
        (ReadFast.initialEngineState wpm)).focusIndex < (words.length : Int)) ∧
    (∀ st : ReadFast.EngineSt, ¬ st.focusIndex < (words.length : Int) - 1 →
      (ReadFast.advanceWordSim ⟨words, wpp⟩ st).focusIndex = st.focusIndex ∧
      (ReadFast.advanceWordSim ⟨words, wpp⟩ st).isPlaying = false) := by
  have hg : ReadFast.GoodDoc ⟨words, wpp⟩ :=
    ⟨hw, hwpp, fun sp hsp =>
      ⟨(ReadFast.buildSentenceMap_mem_bounds _ 0 0 sp hsp).1, hspan sp hsp⟩⟩
  constructor
  · have hwc := ReadFast.goodDoc_wordCount_pos _ hg
    have hI0 : ReadFast.FocusInv ⟨words, wpp⟩ (ReadFast.initialEngineState wpm) := by
      refine ⟨le_refl 0, hwc, by norm_num [ReadFast.initialEngineState], ?_⟩
      show (0 : Int) ≤ max ((((ReadFast.initializeSentences words).length : Int)) - 1) 0
      omega
    have hfin := ReadFast.focusInv_run ⟨words, wpp⟩ ops
      (ReadFast.initialEngineState wpm) hg hI0
    exact ⟨hfin.1, hfin.2.1⟩
  · intro st hst
    unfold ReadFast.advanceWordSim ReadFast.Doc.wordCount
    dsimp only
    split
    · next hlt => exact absurd hlt hst
    · exact ⟨ReadFast.stopSim_focusIndex st, ReadFast.stopSim_isPlaying st⟩

/-- Witness for C4's amended invariant: a two-word aligned document, with a
mode toggle, a sentence-wheel step and a page seek. -/
theorem c4_focus_index_invariant_witness :
    0 ≤ (ReadFast.runSim ⟨["Hi.", "Go."], 300⟩
        [ReadFast.Op.toggleMode, ReadFast.Op.wheel (-1), ReadFast.Op.nextPage]
        (ReadFast.initialEngineState 250)).focusIndex ∧
    (ReadFast.runSim ⟨["Hi.", "Go."], 300⟩
        [ReadFast.Op.toggleMode, ReadFast.Op.wheel (-1), ReadFast.Op.nextPage]
        (ReadFast.initialEngineState 250)).focusIndex <
      ((["Hi.", "Go."] : List String).length : Int) :=
  (c4_focus_index_invariant ["Hi.", "Go."] 300 250
    [ReadFast.Op.toggleMode, ReadFast.Op.wheel (-1), ReadFast.Op.nextPage]
    (by decide) (by decide) (by decide)).1

/-- Counterexample for C4 as stated: for the legal single-token document
`["a.\"B"]` the sentence segmenter cuts inside the token, the second span
starts at word index 1, and toggling to sentence mode followed by one wheel
step drives `focusIndex` to 1 = `wordCount` — outside `[0, wordCount-1]`. -/
theorem c4_focus_index_counterexample :
    ¬ ((ReadFast.runSim ⟨["a.\"B"], 300⟩
        [ReadFast.Op.toggleMode, ReadFast.Op.wheel (-1)]
        (ReadFast.initialEngineState 250)).focusIndex <
      ((["a.\"B"] : List String).length : Int)) := by
  decide

namespace ReadFast

@[simp] theorem clearScheduled_nextTimerId (st : EngineSt) :
    (clearScheduled st).nextTimerId = st.nextTimerId := by
  unfold clearScheduled; cases st.intervalId <;> rfl

@[simp] theorem installInterval_timers (st : EngineSt) (a : TimerAction) (d : ℚ) :
    (installInterval st a d).timers =
      st.timers ++ [⟨st.nextTimerId, true, a, d⟩] := rfl

@[simp] theorem installTimeout_timers (st : EngineSt) (a : TimerAction) (d : ℚ) :
    (installTimeout st a d).timers =
      st.timers ++ [⟨st.nextTimerId, false, a, d⟩] := rfl

@[simp] theorem installInterval_intervalId (st : EngineSt) (a : TimerAction) (d : ℚ) :
    (installInterval st a d).intervalId = some st.nextTimerId := rfl

@[simp] theorem installTimeout_intervalId (st : EngineSt) (a : TimerAction) (d : ℚ) :
    (installTimeout st a d).intervalId = some st.nextTimerId := rfl

theorem timerInv_of_stopped (st : EngineSt) (hp : st.isPlaying = false)
    (ht : st.timers = []) : TimerInv st :=
  ⟨fun _ => ht, fun hc => by rw [hp] at hc; exact absurd hc (by simp)⟩

theorem stopSim_timers_nil (st : EngineSt) (ht : st.timers = []) :
    (stopSim st).timers = [] := by
  unfold stopSim clearScheduled
  dsimp only
  cases st.intervalId with
  | none => exact ht
  | some id =>
    dsimp only
    rw [ht]
    simp

theorem timerInv_stopSim (st : EngineSt) (h : TimerInv st) :
    TimerInv (stopSim st) := by
  apply timerInv_of_stopped _ (stopSim_isPlaying st)
  by_cases hp : st.isPlaying = true
  · obtain ⟨t, ht, hid, _⟩ := h.2 hp
    unfold stopSim clearScheduled
    dsimp only
    rw [hid]
    dsimp only
    rw [ht]
    simp
  · exact stopSim_timers_nil st (h.1 (by simpa using hp))

theorem timerInv_advanceWord (doc : Doc) (st : EngineSt) (h : TimerInv st) :
    TimerInv (advanceWordSim doc st) := by
  unfold advanceWordSim
  split
  · exact h
  · exact timerInv_stopSim st h

theorem timerInv_advanceSentence_aux (doc : Doc) (st : EngineSt)
    (hp : st.isPlaying = true) (hm : st.mode = Mode.sentence)
    (ht : st.timers = []) : TimerInv (advanceSentenceSim doc st) := by
  unfold advanceSentenceSim
  by_cases hcnd : st.sentenceIndex < ((doc.smap).length : Int) - 1
  · rw [if_pos hcnd]
    dsimp only
    cases hsp : spanAt doc.smap (st.sentenceIndex + 1) with
    | some sp =>
      dsimp only
      rw [if_pos ⟨hp, hm⟩]
      refine ⟨fun hc => ?_, fun _ => ?_⟩
      · simp [hp] at hc
      · refine ⟨⟨st.nextTimerId, false, TimerAction.advSentence,
          (countTokens sp.text : ℚ) / st.wpm * 60000⟩, ?_, rfl, Or.inr ⟨?_, rfl, rfl⟩⟩
        · rw [installTimeout_timers]
          dsimp only
          rw [ht]
          rfl
        · exact hm
    | none =>
      dsimp only
      apply timerInv_of_stopped _ (stopSim_isPlaying _)
      exact stopSim_timers_nil _ ht
  · rw [if_neg hcnd]
    apply timerInv_of_stopped _ (stopSim_isPlaying _)
    exact stopSim_timers_nil _ ht

theorem timerInv_start (doc : Doc) (st : EngineSt) (h : TimerInv st) :
    TimerInv (startSim doc st) := by
  unfold startSim
  by_cases hp : st.isPlaying = true
  · rw [if_pos hp]
    exact h
  · rw [if_neg hp]
    have ht : st.timers = [] := h.1 (by simpa using hp)
    dsimp only
    by_cases hm : st.mode = Mode.sentence
    · rw [if_pos hm]
      exact timerInv_advanceSentence_aux doc _ rfl hm ht
    · rw [if_neg hm]
      have hmw : st.mode = Mode.word := by
        cases hmode : st.mode with
        | word => rfl
        | sentence => exact absurd hmode hm
      refine ⟨fun hc => ?_, fun _ => ?_⟩
      · simp at hc
      · refine ⟨⟨st.nextTimerId, true, TimerAction.advWord,
          wordIntervalMs st.wpm⟩, ?_, rfl, Or.inl ⟨hmw, rfl, rfl⟩⟩
        rw [installInterval_timers]
        dsimp only
        rw [ht]
        rfl

theorem timerInv_setSpeed (v : ℚ) (st : EngineSt) (h : TimerInv st) :
    TimerInv (setSpeedSim v st) := by
  unfold setSpeedSim
  dsimp only
  by_cases hc : st.isPlaying = true ∧ st.mode = Mode.word
  · rw [if_pos hc]
    obtain ⟨t, ht, hid, _⟩ := h.2 hc.1
    have hXt : (clearScheduled { st with wpm := v }).timers = [] := by
      unfold clearScheduled
      dsimp only
      rw [hid]
      dsimp only
      rw [ht]
      simp
    refine ⟨fun hcon => ?_, fun _ => ?_⟩
    · simp [hc.1] at hcon
    · refine ⟨⟨(clearScheduled { st with wpm := v }).nextTimerId, true,
        TimerAction.advWord, wordIntervalMs v⟩, ?_, rfl, Or.inl ⟨?_, rfl, rfl⟩⟩
      · rw [installInterval_timers, hXt]
        rfl
      · simp [hc.2]
  · rw [if_neg hc]
    exact h

theorem timerInv_fire (doc : Doc) (id : Nat) (st : EngineSt) (h : TimerInv st) :
    TimerInv (fireTimerSim doc id st) := by
  unfold fireTimerSim
  cases hf : st.timers.find? (fun t => t.id == id) with
  | none => exact h
  | some t =>
    dsimp only
    have hmem : t ∈ st.timers := List.mem_of_find?_eq_some hf
    by_cases hp : st.isPlaying = true
    · obtain ⟨t', ht, hid, hmode⟩ := h.2 hp
      have htt : t = t' := by
        rw [ht] at hmem
        simpa using hmem
      subst htt
      have hidt : t.id = id := by
        have := List.find?_some hf
        simpa using this
      rcases hmode with ⟨hmw, hrep, hact⟩ | ⟨hms, hrep, hact⟩
      · rw [hrep, if_pos rfl, hact]
        exact timerInv_advanceWord doc st h
      · rw [hrep, if_neg (by simp), hact]
        dsimp only
        refine timerInv_advanceSentence_aux doc
          { st with timers := st.timers.filter (fun u => u.id ≠ id) } hp hms ?_
        dsimp only
        rw [ht]
        simp [hidt]
    · have ht : st.timers = [] := h.1 (by simpa using hp)
      rw [ht] at hmem
      simp at hmem

theorem timerInv_toggleMode (doc : Doc) (st : EngineSt) (h : TimerInv st) :
    TimerInv (toggleModeSim doc st) := by
  unfold toggleModeSim
  dsimp only
  have hsnil : (stopSim st).timers = [] :=
    (timerInv_stopSim st h).1 (stopSim_isPlaying st)
  split
  all_goals try apply timerInv_start doc _
  all_goals
    split
  case isTrue.isTrue =>
    cases htf : toggleFind doc.smap 0 (stopSim st).focusIndex with
    | some pair =>
      obtain ⟨i, sp⟩ := pair
      dsimp only
      exact timerInv_of_stopped _ (by simp) (by simpa using hsnil)
    | none =>
      dsimp only
      exact timerInv_of_stopped _ (by simp) (by simpa using hsnil)
  case isTrue.isFalse =>
    exact timerInv_of_stopped _ (by simp) (by simpa using hsnil)
  case isFalse.isTrue =>
    cases htf : toggleFind doc.smap 0 (stopSim st).focusIndex with
    | some pair =>
      obtain ⟨i, sp⟩ := pair
      dsimp only
      exact timerInv_of_stopped _ (by simp) (by simpa using hsnil)
    | none =>
      dsimp only
      exact timerInv_of_stopped _ (by simp) (by simpa using hsnil)
  case isFalse.isFalse =>
    exact timerInv_of_stopped _ (by simp) (by simpa using hsnil)

theorem timerInv_step (doc : Doc) (op : Op) (st : EngineSt) (h : TimerInv st) :
    TimerInv (stepSim doc op st) := by
  cases op with
  | start => exact timerInv_start doc st h
  | stop => exact timerInv_stopSim st h
  | toggleMode => exact timerInv_toggleMode doc st h
  | nextPage =>
    show TimerInv (nextPageSim doc st)
    unfold nextPageSim
    split
    · dsimp only
      cases spanAt doc.smap (min (st.sentenceIndex + 10)
          ((doc.smap.length : Int) - 1)) <;> exact h
    · exact h
  | prevPage =>
    show TimerInv (prevPageSim doc st)
    unfold prevPageSim
    split
    · dsimp only
      cases spanAt doc.smap (max (st.sentenceIndex - 10) 0) <;> exact h
    · exact h
  | setSpeed v => exact timerInv_setSpeed v st h
  | wheel d =>
    show TimerInv (wheelSim doc d st)
    unfold wheelSim
    split
    · split
      · split
        · dsimp only
          cases spanAt doc.smap (st.sentenceIndex - 1) <;> exact h
        · exact h
      · split
        · split
          · dsimp only
            cases spanAt doc.smap (st.sentenceIndex + 1) <;> exact h
          · exact h
        · exact h
    · split
      · split
        · exact h
        · exact h
      · split
        · split
          · exact h
          · exact h
        · exact h
  | fire id => exact timerInv_fire doc id st h

theorem timerInv_run (doc : Doc) (ops : List Op) (st : EngineSt)
    (h : TimerInv st) : TimerInv (runSim doc ops st) := by
  induction ops generalizing st with
  | nil => exact h
  | cons op rest ih => exact ih (stepSim doc op st) (timerInv_step doc op st h)

end ReadFast

/-- C9: at most one scheduled advance is ever active — from a freshly loaded
document, after any sequence of engine operations (including `start()` while
already playing, which returns without installing a second schedule, and
`setSpeed()` while playing, which cancels the existing interval before
installing the new one) the browser timer table holds at most one entry for
the engine. -/
theorem c9_at_most_one_schedule (words : List String) (wpp : Int) (wpm : ℚ)
    (ops : List ReadFast.Op) :
    ((ReadFast.runSim ⟨words, wpp⟩ ops
      (ReadFast.initialEngineState wpm)).timers).length ≤ 1 := by
  have h0 : ReadFast.TimerInv (ReadFast.initialEngineState wpm) :=
    ⟨fun _ => rfl, fun hc => by simp [ReadFast.initialEngineState] at hc⟩
  have hfin := ReadFast.timerInv_run ⟨words, wpp⟩ ops
    (ReadFast.initialEngineState wpm) h0
  by_cases hp : (ReadFast.runSim ⟨words, wpp⟩ ops
      (ReadFast.initialEngineState wpm)).isPlaying = true
  · obtain ⟨t, ht, _⟩ := hfin.2 hp
    rw [ht]
    simp
  · rw [hfin.1 (by simpa using hp)]
    simp

namespace ReadFast

theorem toggleFind_eq_some :
    ∀ (l : List SentenceSpan) (j0 : Nat) (f : Int) (k : Nat) (sp : SentenceSpan),
      l.get? k = some sp →
      (sp.startWordIndex ≤ f ∧ f ≤ sp.endWordIndex) →
      (∀ j, j < k → ∀ spj, l.get? j = some spj →
        ¬ (spj.startWordIndex ≤ f ∧ f ≤ spj.endWordIndex)) →
      toggleFind l j0 f = some (j0 + k, sp)
  | [], _, _, k, _, hk, _, _ => by simp at hk
  | a :: rest, j0, f, 0, sp, hk, hin, _ => by
    have ha : a = sp := by simpa using hk
    subst ha
    rw [toggleFind, if_pos hin, Nat.add_zero]
  | a :: rest, j0, f, k + 1, sp, hk, hin, hnot => by
    have hna : ¬ (a.startWordIndex ≤ f ∧ f ≤ a.endWordIndex) :=
      hnot 0 (Nat.succ_pos k) a rfl
    rw [toggleFind, if_neg hna]
    have ih := toggleFind_eq_some rest (j0 + 1) f k sp (by simpa using hk) hin
      (fun j hj spj hspj => hnot (j + 1) (by omega) spj (by simpa using hspj))
    have harith : j0 + 1 + k = j0 + (k + 1) := by omega
    rw [harith] at ih
    exact ih

end ReadFast

/-- C7 amended: with playback paused, toggling from word mode when
`focusIndex` lies in the k-th sentence span sets `sentenceIndex = k` and
`focusIndex` to that span's `startWordIndex`, and toggling back to word mode
leaves `focusIndex` at that same `startWordIndex` (lossy but deterministic);
if playback was active before the toggle, playback is restarted via
`start()`, which in sentence mode immediately advances — so the engine ends
at `sentenceIndex = k + 1` (when a next sentence exists) rather than `k`. -/
theorem c7_toggle_mode_translation (words : List String) (wpp : Int)
    (st : ReadFast.EngineSt) (k : Nat) (sp : ReadFast.SentenceSpan)
    (hmode : st.mode = ReadFast.Mode.word)
    (hk : (ReadFast.initializeSentences words).get? k = some sp)
    (hin : sp.startWordIndex ≤ st.focusIndex ∧ st.focusIndex ≤ sp.endWordIndex)
    (hfirst : ∀ j, j < k → ∀ spj,
      (ReadFast.initializeSentences words).get? j = some spj →
      ¬ (spj.startWordIndex ≤ st.focusIndex ∧ st.focusIndex ≤ spj.endWordIndex)) :
    (st.isPlaying = false →
      (ReadFast.toggleModeSim ⟨words, wpp⟩ st).mode = ReadFast.Mode.sentence ∧
      (ReadFast.toggleModeSim ⟨words, wpp⟩ st).sentenceIndex = (k : Int) ∧
      (ReadFast.toggleModeSim ⟨words, wpp⟩ st).focusIndex = sp.startWordIndex ∧
      (ReadFast.toggleModeSim ⟨words, wpp⟩
        (ReadFast.toggleModeSim ⟨words, wpp⟩ st)).mode = ReadFast.Mode.word ∧
      (ReadFast.toggleModeSim ⟨words, wpp⟩
        (ReadFast.toggleModeSim ⟨words, wpp⟩ st)).focusIndex = sp.startWordIndex) ∧
    (st.isPlaying = true →
      ∀ spn : ReadFast.SentenceSpan,
        (ReadFast.initializeSentences words).get? (k + 1) = some spn →
        (ReadFast.toggleModeSim ⟨words, wpp⟩ st).isPlaying = true ∧
        (ReadFast.toggleModeSim ⟨words, wpp⟩ st).sentenceIndex = (k : Int) + 1 ∧
        (ReadFast.toggleModeSim ⟨words, wpp⟩ st).focusIndex = spn.startWordIndex) := by
  have htf : ReadFast.toggleFind (ReadFast.Doc.smap ⟨words, wpp⟩) 0
      (ReadFast.stopSim st).focusIndex = some (k, sp) := by
    rw [ReadFast.stopSim_focusIndex]
    have := ReadFast.toggleFind_eq_some (ReadFast.initializeSentences words)
      0 st.focusIndex k sp hk hin hfirst
    simpa using this
  constructor
  · intro hpause
    have h1 : ReadFast.toggleModeSim ⟨words, wpp⟩ st =
        { ReadFast.stopSim st with
          mode := ReadFast.Mode.sentence
          sentenceIndex := (k : Int)
          focusIndex := sp.startWordIndex } := by
      unfold ReadFast.toggleModeSim
      dsimp only
      rw [if_neg (by simp [hpause] : ¬ st.isPlaying = true)]
      rw [if_pos (show (ReadFast.stopSim st).mode = ReadFast.Mode.word by
        simp [hmode])]
      rw [htf]
    have hfx : (ReadFast.toggleModeSim ⟨words, wpp⟩ st).focusIndex =
        sp.startWordIndex := by rw [h1]
    have h2 : ReadFast.toggleModeSim ⟨words, wpp⟩
        { ReadFast.stopSim st with
          mode := ReadFast.Mode.sentence
          sentenceIndex := (k : Int)
          focusIndex := sp.startWordIndex } =
        { ReadFast.stopSim { ReadFast.stopSim st with
            mode := ReadFast.Mode.sentence
            sentenceIndex := (k : Int)
            focusIndex := sp.startWordIndex } with
          mode := ReadFast.Mode.word } := by
      unfold ReadFast.toggleModeSim
      dsimp only
      rw [if_neg (show ¬ (ReadFast.stopSim st).isPlaying = true by simp)]
      rw [if_neg (show ¬ (ReadFast.stopSim { ReadFast.stopSim st with
          mode := ReadFast.Mode.sentence
          sentenceIndex := (k : Int)
          focusIndex := sp.startWordIndex } : ReadFast.EngineSt).mode =
          ReadFast.Mode.word by simp)]
    refine ⟨by rw [h1], by rw [h1], hfx, ?_, ?_⟩
    · rw [h1, h2]
    · rw [h1, h2]
      simp [ReadFast.stopSim_focusIndex]
  · intro hplay spn hkn
    have h3 : ReadFast.toggleModeSim ⟨words, wpp⟩ st =
        ReadFast.startSim ⟨words, wpp⟩
          { ReadFast.stopSim st with
            mode := ReadFast.Mode.sentence
            sentenceIndex := (k : Int)
            focusIndex := sp.startWordIndex } := by
      unfold ReadFast.toggleModeSim
      dsimp only
      rw [if_pos hplay]
      rw [if_pos (show (ReadFast.stopSim st).mode = ReadFast.Mode.word by
        simp [hmode])]
      rw [htf]
    have hlen : k + 1 < (ReadFast.initializeSentences words).length := by
      by_cases hc : k + 1 < (ReadFast.initializeSentences words).length
      · exact hc
      · have h4 : (ReadFast.initializeSentences words).get? (k + 1) = none :=
          List.get?_eq_none.mpr (by omega)
        rw [hkn] at h4
        exact absurd h4 (by simp)
    have hspan : ReadFast.spanAt (ReadFast.Doc.smap ⟨words, wpp⟩)
        ((k : Int) + 1) = some spn := by
      unfold ReadFast.spanAt
      rw [if_pos (by omega : (0 : Int) ≤ (k : Int) + 1)]
      have htn : ((k : Int) + 1).toNat = k + 1 := by omega
      rw [htn]
      exact hkn
    rw [h3]
    unfold ReadFast.startSim
    rw [if_neg (by simp : ¬ ({ ReadFast.stopSim st with
        mode := ReadFast.Mode.sentence
        sentenceIndex := (k : Int)
        focusIndex := sp.startWordIndex } : ReadFast.EngineSt).isPlaying = true)]
    dsimp only
    rw [if_pos (by simp : ({ ReadFast.stopSim st with
        mode := ReadFast.Mode.sentence
        sentenceIndex := (k : Int)
        focusIndex := sp.startWordIndex } : ReadFast.EngineSt).mode =
        ReadFast.Mode.sentence)]
    unfold ReadFast.advanceSentenceSim
    dsimp only
    rw [if_pos (show ((k : Int)) <
        (((ReadFast.Doc.smap ⟨words, wpp⟩).length : Int)) - 1 by
      show ((k : Int)) < (((ReadFast.initializeSentences words).length : Int)) - 1
      omega)]
    rw [hspan]
    dsimp only
    rw [if_pos ⟨rfl, rfl⟩]
    exact ⟨rfl, rfl, rfl⟩

/-- Witness for C7's amended translation: paused toggle on a two-sentence
document with focus in the first sentence. -/
theorem c7_toggle_mode_translation_witness :
    (ReadFast.toggleModeSim ⟨["One.", "Two."], 300⟩
      (ReadFast.initialEngineState 250)).sentenceIndex = ((0 : Nat) : Int) ∧
    (ReadFast.toggleModeSim ⟨["One.", "Two."], 300⟩
      (ReadFast.initialEngineState 250)).focusIndex =
      (⟨0, 0, 0, "One."⟩ : ReadFast.SentenceSpan).startWordIndex := by
  have h := c7_toggle_mode_translation ["One.", "Two."] 300
    (ReadFast.initialEngineState 250) 0 ⟨0, 0, 0, "One."⟩
    (by decide) (by decide) (by decide)
    (fun j hj spj hspj => absurd hj (by omega))
  exact ⟨(h.1 rfl).2.1, (h.1 rfl).2.2.1⟩

/-- Counterexample for C7 as stated: when playback is active, toggling from
word mode at a focus inside sentence 0 does not leave `sentenceIndex = 0` —
the restart immediately advances to sentence 1. -/
theorem c7_toggle_counterexample :
    (ReadFast.runSim ⟨["One.", "Two."], 300⟩
      [ReadFast.Op.start, ReadFast.Op.toggleMode]
      (ReadFast.initialEngineState 250)).sentenceIndex = 1 ∧
    ¬ ((ReadFast.runSim ⟨["One.", "Two."], 300⟩
      [ReadFast.Op.start, ReadFast.Op.toggleMode]
      (ReadFast.initialEngineState 250)).sentenceIndex = 0) := by
  decide

/-- C10 (implicit behavior of `start()` in sentence mode): starting playback
while paused in sentence mode immediately advances — `sentenceIndex` is
incremented and `focusIndex` moves to the new sentence's `startWordIndex`,
skipping the sentence displayed when play began — and schedules the next
advance as a one-shot timer whose delay is
`(token count of the newly shown sentence / wpm) * 60000` ms; at the last
sentence, `start()` immediately stops again with nothing scheduled. -/
theorem c10_sentence_start_advances (words : List String) (wpp : Int)
    (st : ReadFast.EngineSt)
    (hp : st.isPlaying = false) (hm : st.mode = ReadFast.Mode.sentence)
    (ht : st.timers = []) :
    (∀ sp : ReadFast.SentenceSpan,
      st.sentenceIndex < ((ReadFast.initializeSentences words).length : Int) - 1 →
      ReadFast.spanAt (ReadFast.initializeSentences words)
        (st.sentenceIndex + 1) = some sp →
      (ReadFast.startSim ⟨words, wpp⟩ st).isPlaying = true ∧
      (ReadFast.startSim ⟨words, wpp⟩ st).sentenceIndex = st.sentenceIndex + 1 ∧
      (ReadFast.startSim ⟨words, wpp⟩ st).focusIndex = sp.startWordIndex ∧
      (∃ t : ReadFast.ActiveTimer,
        (ReadFast.startSim ⟨words, wpp⟩ st).timers = [t] ∧
        t.repeating = false ∧ t.action = ReadFast.TimerAction.advSentence ∧
        t.delay = ((ReadFast.countTokens sp.text : ℚ) / st.wpm) * 60000)) ∧
    (¬ st.sentenceIndex < ((ReadFast.initializeSentences words).length : Int) - 1 →
      (ReadFast.startSim ⟨words, wpp⟩ st).isPlaying = false ∧
      (ReadFast.startSim ⟨words, wpp⟩ st).timers = []) := by
  constructor
  · intro sp hlt hsp
    have hrun : ReadFast.startSim ⟨words, wpp⟩ st =
        ReadFast.installTimeout
          { st with
            isPlaying := true
            sentenceIndex := st.sentenceIndex + 1
            focusIndex := sp.startWordIndex }
          ReadFast.TimerAction.advSentence
          ((ReadFast.countTokens sp.text : ℚ) / st.wpm * 60000) := by
      unfold ReadFast.startSim
      rw [if_neg (by simp [hp])]
      dsimp only
      rw [if_pos hm]
      unfold ReadFast.advanceSentenceSim
      simp only [ReadFast.Doc.smap]
      rw [if_pos hlt]
      rw [hsp]
      dsimp only
      rw [if_pos ⟨trivial, hm⟩]
    rw [hrun]
    refine ⟨rfl, rfl, rfl,
      ⟨⟨st.nextTimerId, false, ReadFast.TimerAction.advSentence,
        (ReadFast.countTokens sp.text : ℚ) / st.wpm * 60000⟩, ?_, rfl, rfl, rfl⟩⟩
    rw [ReadFast.installTimeout_timers]
    dsimp only
    rw [ht]
    rfl
  · intro hnlt
    have hrun : ReadFast.startSim ⟨words, wpp⟩ st =
        ReadFast.stopSim { st with isPlaying := true } := by
      unfold ReadFast.startSim
      rw [if_neg (by simp [hp])]
      dsimp only
      rw [if_pos hm]
      unfold ReadFast.advanceSentenceSim
      simp only [ReadFast.Doc.smap]
      rw [if_neg hnlt]
    rw [hrun]
    exact ⟨ReadFast.stopSim_isPlaying _, ReadFast.stopSim_timers_nil _ ht⟩

/-- Witness for C10 on a two-sentence document, starting from sentence 0:
the engine jumps to sentence 1 at word index 1 with playback running. -/
theorem c10_sentence_start_advances_witness :
    (ReadFast.startSim ⟨["One.", "Two."], 300⟩
      { ReadFast.initialEngineState 250 with
        mode := ReadFast.Mode.sentence }).isPlaying = true ∧
    (ReadFast.startSim ⟨["One.", "Two."], 300⟩
      { ReadFast.initialEngineState 250 with
        mode := ReadFast.Mode.sentence }).sentenceIndex =
      ({ ReadFast.initialEngineState 250 with
        mode := ReadFast.Mode.sentence } : ReadFast.EngineSt).sentenceIndex + 1 ∧
    (ReadFast.startSim ⟨["One.", "Two."], 300⟩
      { ReadFast.initialEngineState 250 with
        mode := ReadFast.Mode.sentence }).focusIndex =
      (⟨1, 1, 1, "Two."⟩ : ReadFast.SentenceSpan).startWordIndex := by
  have h := c10_sentence_start_advances ["One.", "Two."] 300
    { ReadFast.initialEngineState 250 with mode := ReadFast.Mode.sentence }
    rfl rfl rfl
  have h1 := h.1 ⟨1, 1, 1, "Two."⟩ (by decide) (by decide)
  exact ⟨h1.1, h1.2.1, h1.2.2.1⟩
